import Mathlib

/-!
Verification of the MiniChrisBox Power Analyzer ingestion pipeline
(`src/main.py`) against its natural-language specification.

The Python code is shallowly embedded: dictionaries become association
lists (preserving insertion order, as Python dicts do), floats become a
four-constructor type `PyFloat` (a finite rational, two infinities, NaN;
no rounding is modelled because the verified claims only compare, never
accumulate, float values), JSON-like values become the inductive `PyVal`,
and the mutable GUI / controller state becomes explicit state-passing
records.
-/

namespace PowerAnalyzer

/-- Model of a Python float: either a finite value (as a rational) or one
of the non-finite values `inf`, `-inf`, `nan`. -/
inductive PyFloat where
  | fin (q : ℚ)
  | inf
  | ninf
  | nan
deriving DecidableEq

/-- `np.isfinite` on a float. -/
def PyFloat.isfinite : PyFloat → Bool
  | .fin _ => true
  | _ => false

/-- The Python comparison `x < 0` on a float (`nan < 0` and `inf < 0` are
false, `-inf < 0` is true). -/
def PyFloat.lt0 : PyFloat → Bool
  | .fin q => decide (q < 0)
  | .ninf => true
  | _ => false

/-- Rendering of a float into a message string (used only inside
human-readable corruption details; exact Python float formatting is not
reproduced). -/
def PyFloat.render : PyFloat → String
  | .fin q => toString q
  | .inf => "inf"
  | .ninf => "-inf"
  | .nan => "nan"

/-- Model of a Python value as found in a parsed telemetry JSON file. -/
inductive PyVal where
  | num (x : PyFloat)
  | str (s : String)
  | bool (b : Bool)
  | pynone
  | list (xs : List PyVal)
  | dict (xs : List (String × PyVal))

/-- Lookup in a Python dict modelled as an association list (first match;
Python dict keys are unique, so this is exact). -/
def dictLookup (kvs : List (String × PyVal)) (k : String) : Option PyVal :=
  match kvs with
  | [] => Option.none
  | (g, v) :: rest => if g = k then some v else dictLookup rest k

/-- Whitespace per Python `str.strip` ASCII subset. -/
def isPyWS (c : Char) : Bool :=
  c = ' ' || c = '\t' || c = '\n' || c = '\r' || c = '\x0b' || c = '\x0c'

/-- Python `str.strip`: drop whitespace from both ends of a char list. -/
def stripChars (cs : List Char) : List Char :=
  ((cs.dropWhile isPyWS).reverse.dropWhile isPyWS).reverse

/-- Digits of a char list read as a natural number, `none` if empty or a
non-digit appears. -/
def digitsVal : List Char → Option ℕ
  | [] => Option.none
  | cs => cs.foldl (fun acc c => match acc with
      | Option.none => Option.none
      | some n => if c.isDigit then some (10 * n + (c.toNat - '0'.toNat)) else Option.none)
      (some 0)

/-- Parse an unsigned decimal mantissa `digits[.digits]` (at least one
digit overall) into a rational. -/
def parseMantissa (cs : List Char) : Option ℚ :=
  match cs.splitOn '.' with
  | [intPart] =>
    match digitsVal intPart with
    | some n => some (n : ℚ)
    | Option.none => Option.none
  | [intPart, fracPart] =>
    if intPart = [] ∧ fracPart = [] then Option.none
    else
      match (if intPart = [] then some 0 else digitsVal intPart),
            (if fracPart = [] then some 0 else digitsVal fracPart) with
      | some n, some f => some ((n : ℚ) + (f : ℚ) / ((10 : ℚ) ^ fracPart.length))
      | _, _ => Option.none
  | _ => Option.none

/-- Parse an optional exponent-carrying decimal `mant[eE][±]digits`. -/
def parseDecimal (cs : List Char) : Option ℚ :=
  match cs.splitOn 'e' with
  | [m] =>
    match cs.splitOn 'E' with
    | [_] => parseMantissa m
    | [m', e'] =>
      match parseMantissa m', (match e' with
        | '+' :: ds => digitsVal ds
        | '-' :: ds => (digitsVal ds).map (fun n => (n : ℤ).neg)
        | ds => digitsVal ds |>.map (fun n => (n : ℤ))) with
      | some q, some (z : ℤ) => some (q * (10 : ℚ) ^ z)
      | _, _ => Option.none
    | _ => Option.none
  | [m, e] =>
    match parseMantissa m, (match e with
      | '+' :: ds => (digitsVal ds).map (fun n => (n : ℤ))
      | '-' :: ds => (digitsVal ds).map (fun n => (n : ℤ).neg)
      | ds => (digitsVal ds).map (fun n => (n : ℤ))) with
    | some q, some z => some (q * (10 : ℚ) ^ z)
    | _, _ => Option.none
  | _ => Option.none

/-- Python `float(s)` on a string: strips whitespace, accepts an optional
sign followed by a decimal numeral or the words `inf` / `infinity` /
`nan` (case-insensitive). -/
def parsePyFloatString (s : String) : Option PyFloat :=
  let cs := stripChars s.toList
  let core := fun (neg : Bool) (body : List Char) =>
    let low := body.map Char.toLower
    if low = "inf".toList ∨ low = "infinity".toList then
      some (if neg then PyFloat.ninf else PyFloat.inf)
    else if low = "nan".toList then some PyFloat.nan
    else match parseDecimal body with
      | some q => some (PyFloat.fin (if neg then -q else q))
      | Option.none => Option.none
  match cs with
  | '+' :: rest => core false rest
  | '-' :: rest => core true rest
  | rest => core false rest

/-- Python `float(v)` on an arbitrary value: floats pass through, bools
become 0/1, strings are parsed, everything else raises (modelled as
`none`). -/
def pyFloatOf : PyVal → Option PyFloat
  | .num x => some x
  | .bool b => some (.fin (if b then 1 else 0))
  | .str s => parsePyFloatString s
  | _ => Option.none

/-- `DEVICES` from `src/main.py`. -/
def DEVICES : List String := ["GSE-1", "GSE-2", "TE-R", "TE-1", "TE-2", "TE-3"]

/-- `DATA_TYPES` from `src/main.py`. -/
def DATA_TYPES : List String := ["volt", "curr", "pow", "stat"]

/-- The recognized field keys scanned by `validate_and_check_corruption`,
in the nested-loop order `for device in DEVICES: for data_type in
DATA_TYPES`. -/
def fieldKeys : List String :=
  DEVICES.foldr (fun d acc => DATA_TYPES.map (fun ty => d ++ "_" ++ ty) ++ acc) []

/-- The inner field scan of `validate_and_check_corruption`: walk the
recognized keys in order and return the first corruption reason, stopping
at the first offending field (`break` in the source). -/
def firstBadField (ks : List String) (kvs : List (String × PyVal)) : Option String :=
  match ks with
  | [] => Option.none
  | k :: rest =>
    match dictLookup kvs k with
    | Option.none => firstBadField rest kvs
    | some v =>
      match pyFloatOf v with
      | Option.none => some (k ++ " field is not numeric")
      | some x =>
        if !x.isfinite then some ("Invalid " ++ k ++ " value: " ++ x.render)
        else firstBadField rest kvs

/-- The per-point body of the validation loop in
`validate_and_check_corruption`: returns the corruption reason for one
point, or `none` if the point is clean. -/
def checkPoint (p : PyVal) : Option String :=
  match p with
  | .dict kvs =>
    match dictLookup kvs "time" with
    | Option.none => some "Missing time field"
    | some tv =>
      match pyFloatOf tv with
      | Option.none => some "Time field is not numeric"
      | some x =>
        if x.lt0 || !x.isfinite then some ("Invalid time value: " ++ x.render)
        else firstBadField fieldKeys kvs
  | _ => some "Not a valid object"

/-- `list(dict.fromkeys(xs))`: deduplication keeping the first occurrence
of each element, order preserved. -/
def dedupFirstAux (seen : List ℕ) : List ℕ → List ℕ
  | [] => []
  | x :: xs => if x ∈ seen then dedupFirstAux seen xs else x :: dedupFirstAux (x :: seen) xs

/-- Order-preserving deduplication, as `list(dict.fromkeys(...))`. -/
def dedupFirst (xs : List ℕ) : List ℕ := dedupFirstAux [] xs

/-- The `corruption_info` record returned by
`validate_and_check_corruption`. -/
structure CorruptionInfo where
  has_corruption : Bool
  corrupted_indices : List ℕ
  total_points : ℕ
  corruption_details : List String

/-- The empty report returned on malformed input. -/
def emptyCorruptionInfo : CorruptionInfo :=
  ⟨false, [], 0, []⟩

/-- Indices flagged by the validation loop (`for i, point in
enumerate(data_points)` starting at index `i`): each point contributes its
own index at most once, because each flagged condition ends the point's
iteration with `continue` or `break`. -/
def corruptIndicesFrom (i : ℕ) : List PyVal → List ℕ
  | [] => []
  | p :: pts =>
    match checkPoint p with
    | some _ => i :: corruptIndicesFrom (i + 1) pts
    | Option.none => corruptIndicesFrom (i + 1) pts

/-- Indices flagged by the validation loop. -/
def corruptIndices (pts : List PyVal) : List ℕ := corruptIndicesFrom 0 pts

/-- Corruption detail messages accumulated by the validation loop. -/
def corruptDetailsFrom (i : ℕ) : List PyVal → List String
  | [] => []
  | p :: pts =>
    match checkPoint p with
    | some r => ("Point " ++ toString i ++ ": " ++ r) :: corruptDetailsFrom (i + 1) pts
    | Option.none => corruptDetailsFrom (i + 1) pts

/-- Corruption detail messages accumulated by the validation loop. -/
def corruptDetails (pts : List PyVal) : List String := corruptDetailsFrom 0 pts

/-- `PowerControllerGUI.validate_and_check_corruption`: validates a parsed
file against the fixed recognized-field schema and returns the corruption
report (indices deduplicated order-preserving, details truncated to 10).
The Python scan never raises; the embedding is total for the same
reason. -/
def validate_and_check_corruption (data : PyVal) : CorruptionInfo :=
  match data with
  | .dict kvs =>
    match dictLookup kvs "data" with
    | some (.list pts) =>
      let idxs := dedupFirst (corruptIndices pts)
      if idxs ≠ [] then
        ⟨true, idxs, pts.length, (corruptDetails pts).take 10⟩
      else
        ⟨false, [], pts.length, []⟩
    | some _ => emptyCorruptionInfo
    | Option.none => emptyCorruptionInfo
  | _ => emptyCorruptionInfo

/-- Spec-side: the `time` entry of a point is bad — missing, non-numeric
(in the sense that Python `float()` fails on it), negative, or
non-finite. -/
def TimeBad (o : Option PyVal) : Prop :=
  match o with
  | Option.none => True
  | some tv =>
    match pyFloatOf tv with
    | Option.none => True
    | some x => x.lt0 = true ∨ x.isfinite = false

instance (o : Option PyVal) : Decidable (TimeBad o) :=
  match o with
  | Option.none => isTrue trivial
  | some tv =>
    match h : pyFloatOf tv with
    | Option.none => isTrue (by simp [TimeBad, h])
    | some x => decidable_of_iff (x.lt0 = true ∨ x.isfinite = false) (by simp [TimeBad, h])

/-- Spec-side: a field value stored under a recognized key is bad — it is
present but non-numeric or non-finite. -/
def FieldBad (o : Option PyVal) : Prop :=
  match o with
  | Option.none => False
  | some v =>
    match pyFloatOf v with
    | Option.none => True
    | some x => x.isfinite = false

instance (o : Option PyVal) : Decidable (FieldBad o) :=
  match o with
  | Option.none => isFalse (fun h => h)
  | some v =>
    match h : pyFloatOf v with
    | Option.none => isTrue (by simp [FieldBad, h])
    | some x => decidable_of_iff (x.isfinite = false) (by simp [FieldBad, h])

/-- Spec-side per-point corruption predicate, written from the claim's
words: the point is not a mapping, or lacks `time`, or its `time` value is
non-numeric, negative, or non-finite, or some recognized field key is
present with a non-numeric or non-finite value. -/
def PointCorrupt (p : PyVal) : Prop :=
  match p with
  | .dict kvs =>
    TimeBad (dictLookup kvs "time") ∨
    ∃ k ∈ fieldKeys, FieldBad (dictLookup kvs k)
  | _ => True

instance (p : PyVal) : Decidable (PointCorrupt p) := by
  unfold PointCorrupt
  cases p <;> infer_instance

/-- Spec-side list of flagged indices: exactly the positions of corrupt
points, in ascending order. -/
def flaggedIndices (pts : List PyVal) : List ℕ :=
  (List.range pts.length).filter (fun i => decide (PointCorrupt (pts.getD i PyVal.pynone)))

theorem firstBadField_eq_none_iff (ks : List String) (kvs : List (String × PyVal)) :
    firstBadField ks kvs = Option.none ↔ ∀ k ∈ ks, ¬ FieldBad (dictLookup kvs k) := by
  induction ks with
  | nil => simp [firstBadField]
  | cons k rest ih =>
    rcases hv : dictLookup kvs k with _ | v
    · simp only [firstBadField, hv, List.mem_cons]
      rw [ih]
      constructor
      · rintro h x (rfl | hx)
        · rw [hv]; exact fun hh => hh
        · exact h x hx
      · intro h x hx
        exact h x (Or.inr hx)
    · rcases hfv : pyFloatOf v with _ | x
      · simp only [firstBadField, hv, hfv, List.mem_cons]
        constructor
        · intro h; cases h
        · intro h
          exact absurd (show FieldBad (dictLookup kvs k) by rw [hv]; simp [FieldBad, hfv])
            (h k (Or.inl rfl))
      · by_cases hfin : x.isfinite = true
        · have hb : (!x.isfinite) = false := by simp [hfin]
          simp only [firstBadField, hv, hfv, hb, Bool.false_eq_true, if_false, List.mem_cons]
          rw [ih]
          constructor
          · rintro h x' (rfl | hx)
            · rw [hv]; simp [FieldBad, hfv, hfin]
            · exact h x' hx
          · intro h x' hx
            exact h x' (Or.inr hx)
        · have hfin' : x.isfinite = false := by revert hfin; cases x.isfinite <;> simp
          have hb : (!x.isfinite) = true := by simp [hfin']
          simp only [firstBadField, hv, hfv, hb, if_true, List.mem_cons]
          constructor
          · intro h; cases h
          · intro h
            exact absurd (show FieldBad (dictLookup kvs k) by rw [hv]; simp [FieldBad, hfv, hfin'])
              (h k (Or.inl rfl))

theorem checkPoint_eq_none_iff (p : PyVal) :
    checkPoint p = Option.none ↔ ¬ PointCorrupt p := by
  cases p with
  | dict kvs =>
    rcases ht : dictLookup kvs "time" with _ | tv
    · simp [checkPoint, PointCorrupt, ht, TimeBad]
    · rcases hf : pyFloatOf tv with _ | x
      · simp [checkPoint, PointCorrupt, ht, hf, TimeBad]
      · by_cases hl : x.lt0 = true
        · simp only [checkPoint, ht, hf]
          rw [if_pos (by simp [hl])]
          simp [PointCorrupt, ht, TimeBad, hf, hl]
        · have hl' : x.lt0 = false := by revert hl; cases x.lt0 <;> simp
          by_cases hfin : x.isfinite = true
          · simp only [checkPoint, ht, hf]
            rw [if_neg (by simp [hl', hfin])]
            rw [firstBadField_eq_none_iff]
            simp only [PointCorrupt, ht]
            have htb : ¬ TimeBad (some tv) := by simp [TimeBad, hf, hl', hfin]
            constructor
            · intro h hc
              rcases hc with hc | ⟨k, hk, hbad⟩
              · exact htb hc
              · exact h k hk hbad
            · intro h k hk hbad
              exact h (Or.inr ⟨k, hk, hbad⟩)
          · have hfin' : x.isfinite = false := by revert hfin; cases x.isfinite <;> simp
            simp only [checkPoint, ht, hf]
            rw [if_pos (by simp [hfin'])]
            simp [PointCorrupt, ht, TimeBad, hf, hfin']
  | num x => simp [checkPoint, PointCorrupt]
  | str s => simp [checkPoint, PointCorrupt]
  | bool b => simp [checkPoint, PointCorrupt]
  | pynone => simp [checkPoint, PointCorrupt]
  | list xs => simp [checkPoint, PointCorrupt]

theorem checkPoint_isSome_iff (p : PyVal) :
    (checkPoint p).isSome = true ↔ PointCorrupt p := by
  rw [← Option.ne_none_iff_isSome, ne_eq, checkPoint_eq_none_iff, not_not]

theorem corruptIndicesFrom_eq (pts : List PyVal) :
    ∀ i : ℕ, corruptIndicesFrom i pts =
      ((List.range pts.length).filter
        (fun j => decide (PointCorrupt (pts.getD j PyVal.pynone)))).map (· + i) := by
  induction pts with
  | nil => intro i; simp [corruptIndicesFrom]
  | cons p pts ih =>
    intro i
    have hgd0 : (p :: pts).getD 0 PyVal.pynone = p := rfl
    have htail :
        ((List.range pts.length).map Nat.succ).filter
          (fun j => decide (PointCorrupt ((p :: pts).getD j PyVal.pynone))) =
        ((List.range pts.length).filter
          (fun j => decide (PointCorrupt (pts.getD j PyVal.pynone)))).map Nat.succ := by
      rw [List.filter_map]
      congr 1
    have hmm :
        (((List.range pts.length).filter
          (fun j => decide (PointCorrupt (pts.getD j PyVal.pynone)))).map Nat.succ).map (· + i) =
        ((List.range pts.length).filter
          (fun j => decide (PointCorrupt (pts.getD j PyVal.pynone)))).map (· + (i + 1)) := by
      rw [List.map_map]
      congr 1
      funext j
      simp only [Function.comp_apply, Nat.succ_eq_add_one]
      omega
    rcases hc : checkPoint p with _ | r
    · have hnc : ¬ PointCorrupt p := (checkPoint_eq_none_iff p).1 hc
      simp only [corruptIndicesFrom, hc, List.length_cons, List.range_succ_eq_map,
        List.filter_cons, hgd0]
      rw [if_neg (by simpa using hnc)]
      rw [htail, hmm]
      exact ih (i + 1)
    · have hcor : PointCorrupt p := (checkPoint_isSome_iff p).1 (by rw [hc]; rfl)
      simp only [corruptIndicesFrom, hc, List.length_cons, List.range_succ_eq_map,
        List.filter_cons, hgd0]
      rw [if_pos (by simpa using hcor)]
      rw [List.map_cons, htail, hmm, ih (i + 1)]
      congr 1
      omega

theorem corruptIndices_eq_flagged (pts : List PyVal) :
    corruptIndices pts = flaggedIndices pts := by
  rw [corruptIndices, corruptIndicesFrom_eq pts 0, flaggedIndices]
  simp

theorem dedupFirstAux_of_nodup :
    ∀ (xs seen : List ℕ), xs.Nodup → (∀ x ∈ xs, x ∉ seen) → dedupFirstAux seen xs = xs := by
  intro xs
  induction xs with
  | nil => intro seen _ _; rfl
  | cons x xs ih =>
    intro seen hnd hdisj
    simp only [dedupFirstAux]
    rw [if_neg (hdisj x (List.mem_cons_self x xs))]
    congr 1
    apply ih (x :: seen) (List.Nodup.of_cons hnd)
    intro y hy
    simp only [List.mem_cons]
    rintro (rfl | hmem)
    · exact (List.nodup_cons.1 hnd).1 hy
    · exact hdisj y (List.mem_cons_of_mem x hy) hmem

theorem dedupFirst_of_nodup (xs : List ℕ) (h : xs.Nodup) : dedupFirst xs = xs :=
  dedupFirstAux_of_nodup xs [] h (by simp)

theorem flaggedIndices_sorted (pts : List PyVal) :
    (flaggedIndices pts).Sorted (· < ·) :=
  (List.pairwise_lt_range _).sublist (List.filter_sublist _)

theorem flaggedIndices_nodup (pts : List PyVal) :
    (flaggedIndices pts).Nodup :=
  (flaggedIndices_sorted pts).nodup

theorem validate_corrupted_indices_eq (kvs : List (String × PyVal)) (pts : List PyVal)
    (h : dictLookup kvs "data" = some (.list pts)) :
    (validate_and_check_corruption (.dict kvs)).corrupted_indices = flaggedIndices pts := by
  simp only [validate_and_check_corruption, h]
  rw [corruptIndices_eq_flagged, dedupFirst_of_nodup _ (flaggedIndices_nodup pts)]
  split
  · rfl
  · next hne =>
    rw [not_ne_iff] at hne
    exact hne.symm

theorem validate_details_short (kvs : List (String × PyVal)) (pts : List PyVal)
    (h : dictLookup kvs "data" = some (.list pts)) :
    (validate_and_check_corruption (.dict kvs)).corruption_details.length ≤ 10 := by
  simp only [validate_and_check_corruption, h]
  split
  · exact List.length_take_le 10 _
  · simp

theorem validate_total_points (kvs : List (String × PyVal)) (pts : List PyVal)
    (h : dictLookup kvs "data" = some (.list pts)) :
    (validate_and_check_corruption (.dict kvs)).total_points = pts.length := by
  simp only [validate_and_check_corruption, h]
  split <;> rfl

/-- The spec's corruption example: points
`[{time:0,v:1},{time:-1,v:2},{v:3},{time:2,v:"x"}]` with `v` the
recognized field key `GSE-1_volt`. -/
def examplePoints : List PyVal :=
  [.dict [("time", .num (.fin 0)), ("GSE-1_volt", .num (.fin 1))],
   .dict [("time", .num (.fin (-1))), ("GSE-1_volt", .num (.fin 2))],
   .dict [("GSE-1_volt", .num (.fin 3))],
   .dict [("time", .num (.fin 2)), ("GSE-1_volt", .str "x")]]

/-- The spec's corruption example wrapped as a parsed file. -/
def exampleFile : PyVal := .dict [("data", .list examplePoints)]

/-- C5: corruption detection flags exactly the indices of corrupt points —
those that are not mappings, lack `time`, have a non-numeric (Python
`float()` fails), negative, or non-finite `time`, or have some recognized
field key present with a non-numeric or non-finite value. The index list
equals `flaggedIndices` (ascending positions of corrupt points), hence is
deduplicated with order preserved; at most 10 reasons are reported; the
count of points is reported; and on the spec's concrete example exactly
indices 1, 2, 3 are flagged (index 0 is clean). The embedding is a total
function, mirroring the fact that the Python scan catches all conversion
errors and never raises. -/
theorem C5_validate_flags_exactly_bad_points
    (kvs : List (String × PyVal)) (pts : List PyVal)
    (h : dictLookup kvs "data" = some (.list pts)) :
    (validate_and_check_corruption (.dict kvs)).corrupted_indices = flaggedIndices pts ∧
    (validate_and_check_corruption (.dict kvs)).corrupted_indices.Sorted (· < ·) ∧
    (validate_and_check_corruption (.dict kvs)).corrupted_indices.Nodup ∧
    (validate_and_check_corruption (.dict kvs)).corruption_details.length ≤ 10 ∧
    (validate_and_check_corruption (.dict kvs)).total_points = pts.length ∧
    (validate_and_check_corruption exampleFile).corrupted_indices = [1, 2, 3] ∧
    (validate_and_check_corruption exampleFile).has_corruption = true := by
  refine ⟨validate_corrupted_indices_eq kvs pts h, ?_, ?_, validate_details_short kvs pts h,
    validate_total_points kvs pts h, ?_, ?_⟩
  · rw [validate_corrupted_indices_eq kvs pts h]
    exact flaggedIndices_sorted pts
  · rw [validate_corrupted_indices_eq kvs pts h]
    exact flaggedIndices_nodup pts
  · rfl
  · rfl

/-- Witness for C5 at the spec's concrete example file. -/
theorem C5_witness :
    dictLookup [("data", PyVal.list examplePoints)] "data" = some (PyVal.list examplePoints) ∧
    (validate_and_check_corruption (.dict [("data", PyVal.list examplePoints)])).corrupted_indices =
      flaggedIndices examplePoints :=
  ⟨rfl, (C5_validate_flags_exactly_bad_points [("data", PyVal.list examplePoints)]
    examplePoints rfl).1⟩

/-- A point with a valid time whose only bad values sit under keys the
scanner does not recognize (the `Total` pseudo-device and an arbitrary
extra key). -/
def junkKeyFile : PyVal :=
  .dict [("data", .list
    [.dict [("time", .num (.fin 0)), ("Total_curr", .str "x"), ("junk", .num .nan)]])]

/-- C10: the corruption scan examines only the 24 recognized field keys
`<device>_<type>` over the six devices and four measurement types; a point
whose `time` is valid and whose recognized fields are all clean is never
flagged, no matter what values sit under other keys — in particular a
non-numeric `Total_curr` and a NaN under an arbitrary extra key do not
flag the point. -/
theorem C10_scan_ignores_unrecognized_keys
    (kvs : List (String × PyVal))
    (ht : ¬ TimeBad (dictLookup kvs "time"))
    (hf : ∀ k ∈ fieldKeys, ¬ FieldBad (dictLookup kvs k)) :
    checkPoint (.dict kvs) = Option.none ∧
    fieldKeys =
      ["GSE-1_volt", "GSE-1_curr", "GSE-1_pow", "GSE-1_stat",
       "GSE-2_volt", "GSE-2_curr", "GSE-2_pow", "GSE-2_stat",
       "TE-R_volt", "TE-R_curr", "TE-R_pow", "TE-R_stat",
       "TE-1_volt", "TE-1_curr", "TE-1_pow", "TE-1_stat",
       "TE-2_volt", "TE-2_curr", "TE-2_pow", "TE-2_stat",
       "TE-3_volt", "TE-3_curr", "TE-3_pow", "TE-3_stat"] ∧
    (validate_and_check_corruption junkKeyFile).corrupted_indices = [] := by
  refine ⟨?_, rfl, rfl⟩
  rw [checkPoint_eq_none_iff]
  simp only [PointCorrupt]
  rintro (hc | ⟨k, hk, hbad⟩)
  · exact ht hc
  · exact hf k hk hbad

/-- Witness for C10 at a concrete point carrying junk keys. -/
theorem C10_witness :
    (¬ TimeBad (dictLookup [("time", PyVal.num (.fin 0)), ("Total_curr", PyVal.str "x")] "time")) ∧
    checkPoint (.dict [("time", PyVal.num (.fin 0)), ("Total_curr", PyVal.str "x")]) =
      Option.none :=
  ⟨by decide, (C10_scan_ignores_unrecognized_keys
    [("time", PyVal.num (.fin 0)), ("Total_curr", PyVal.str "x")]
    (by decide) (by decide)).1⟩

/-! ## Live Time-Series Store (`insert_data_by_timestamp`,
`_process_data_buffer`)

A drained telemetry record is the pair `(data_point, time_sec)` queued by
`on_live_data_received`; `data_point` is a Python dict from field key to
float (plus a `time` entry), modelled as an association list over ℚ
(non-finite float values never reach this path: `on_live_data_received`
builds them with `float(...)` from decoded JSON readings, and only
comparisons and structural moves happen here, so rationals are exact). -/

/-- A live telemetry data point: field key to numeric value, insertion
order preserved as in a Python dict. -/
abbrev DataPoint := List (String × ℚ)

/-- The live-store slice of `PowerControllerGUI`'s mutable state. -/
structure LiveState where
  live_data_points : List DataPoint
  live_times : List ℚ
  all_fields : List String
  live_channels : List (String × List ℚ)
deriving DecidableEq

/-- The fresh live store right after `__init__` or a live/file mode
switch. -/
def freshLive : LiveState := ⟨[], [], [], []⟩

/-- The insertion-index loop of `insert_data_by_timestamp`: the first
index whose existing timestamp satisfies `new_time <= existing_time`, or
the length if none does (the `for ... else` arm). -/
def insertionIdx (ts : List ℚ) (t : ℚ) : ℕ :=
  match ts with
  | [] => 0
  | x :: rest => if t ≤ x then 0 else insertionIdx rest t + 1

/-- `PowerControllerGUI.insert_data_by_timestamp`: append when the store
is empty or the new time is `>=` the last stored time, otherwise insert
point and time at the loop's insertion index. -/
def insert_data_by_timestamp (s : LiveState) (p : DataPoint) (t : ℚ) : LiveState :=
  if s.live_times = [] then
    { s with live_data_points := s.live_data_points ++ [p],
             live_times := s.live_times ++ [t] }
  else if s.live_times.getLastD 0 ≤ t then
    { s with live_data_points := s.live_data_points ++ [p],
             live_times := s.live_times ++ [t] }
  else
    if insertionIdx s.live_times t = s.live_times.length then
      { s with live_data_points := s.live_data_points ++ [p],
               live_times := s.live_times ++ [t] }
    else
      { s with live_data_points :=
                 s.live_data_points.insertIdx (insertionIdx s.live_times t) p,
               live_times := s.live_times.insertIdx (insertionIdx s.live_times t) t }

/-- `data_point.get(field, 0.0)`. -/
def getField (p : DataPoint) (f : String) : ℚ :=
  match p.lookup f with
  | some v => v
  | Option.none => 0

/-- One channel update of the drain loop: create the channel if the field
is missing (Python dicts append new keys at the end), then append the
point's value for it. -/
def appendChannel (chs : List (String × List ℚ)) (f : String) (v : ℚ) :
    List (String × List ℚ) :=
  match chs with
  | [] => [(f, [v])]
  | (g, l) :: rest =>
    if g = f then (g, l ++ [v]) :: rest else (g, l) :: appendChannel rest f v

/-- The `for field in self.all_fields` channel-update loop of
`_process_data_buffer`. -/
def updateChannels (fields : List String) (p : DataPoint)
    (chs : List (String × List ℚ)) : List (String × List ℚ) :=
  fields.foldl (fun acc f => appendChannel acc f (getField p f)) chs

/-- One overflow pop: `popleft` on the channel of `f` when it is
non-empty (keys not present are left alone; the drain loop has created a
channel for every field before this runs). -/
def popChannel (chs : List (String × List ℚ)) (f : String) :
    List (String × List ℚ) :=
  match chs with
  | [] => []
  | (g, l) :: rest =>
    if g = f then (g, if l = [] then l else l.tail) :: rest
    else (g, l) :: popChannel rest f

/-- The `for field in self.all_fields` eviction loop. -/
def popChannels (fields : List String) (chs : List (String × List ℚ)) :
    List (String × List ℚ) :=
  fields.foldl popChannel chs

/-- The `if not self.all_fields` schema-discovery step: the non-`time`
keys of the point when `all_fields` is still empty, the existing field set
otherwise. -/
def newFields (s1 : LiveState) (p : DataPoint) : List String :=
  if s1.all_fields = [] then (p.map Prod.fst).filter (fun k => k ≠ "time")
  else s1.all_fields

/-- The channel-update step of the drain loop: set `all_fields` (schema
discovery) and append every field's value (default 0.0) to its channel. -/
def channelStep (s1 : LiveState) (p : DataPoint) : LiveState :=
  { s1 with all_fields := newFields s1 p,
            live_channels := updateChannels (newFields s1 p) p s1.live_channels }

/-- The overflow step of the drain loop: when the store holds more than
`max_live_points` points and the retention mode is Scroll
(`data_mode == 0`), `popleft` the oldest point, timestamp, and one element
of every field's channel. -/
def evictStep (data_mode : ℤ) (max_live_points : ℕ) (s2 : LiveState) : LiveState :=
  if s2.live_data_points.length > max_live_points ∧ data_mode = 0 then
    { s2 with live_data_points := s2.live_data_points.tail,
              live_times := s2.live_times.tail,
              live_channels := popChannels s2.all_fields s2.live_channels }
  else s2

/-- One iteration of the `while self.data_buffer` drain loop of
`_process_data_buffer`: insert the record, derive `all_fields` from the
point's non-`time` keys if still unset, append per-field channel values
(default 0.0), then evict the oldest element of everything when the store
exceeds `max_live_points` and the retention mode is Scroll
(`data_mode == 0`). -/
def process_record (data_mode : ℤ) (max_live_points : ℕ) (s : LiveState)
    (p : DataPoint) (t : ℚ) : LiveState :=
  evictStep data_mode max_live_points (channelStep (insert_data_by_timestamp s p t) p)

/-- `PowerControllerGUI._process_data_buffer`: apply every queued record
in arrival order. -/
def process_data_buffer (data_mode : ℤ) (max_live_points : ℕ) (s : LiveState)
    (buf : List (DataPoint × ℚ)) : LiveState :=
  buf.foldl (fun st r => process_record data_mode max_live_points st r.1 r.2) s

/-- Channel lookup in the association-list model of `live_channels`. -/
def chLookup (chs : List (String × List ℚ)) (f : String) : Option (List ℚ) :=
  match chs with
  | [] => Option.none
  | (g, l) :: rest => if g = f then some l else chLookup rest f

theorem insertionIdx_le (ts : List ℚ) (t : ℚ) : insertionIdx ts t ≤ ts.length := by
  induction ts with
  | nil => simp [insertionIdx]
  | cons x rest ih =>
    simp only [insertionIdx, List.length_cons]
    split
    · omega
    · omega

theorem insertionIdx_lt (ts : List ℚ) (t : ℚ) (hne : ts ≠ [])
    (hle : t ≤ ts.getLastD 0) : insertionIdx ts t < ts.length := by
  induction ts with
  | nil => exact absurd rfl hne
  | cons x rest ih =>
    simp only [insertionIdx, List.length_cons]
    by_cases hx : t ≤ x
    · rw [if_pos hx]; omega
    · rw [if_neg hx]
      rcases rest with _ | ⟨y, rest'⟩
      · exact absurd (by simpa using hle) hx
      · have := ih (by simp) (by simpa [List.getLastD] using hle)
        omega

theorem insertIdx_insertionIdx_eq_orderedInsert (ts : List ℚ) (t : ℚ) :
    ts.insertIdx (insertionIdx ts t) t = List.orderedInsert (· ≤ ·) t ts := by
  induction ts with
  | nil => rfl
  | cons x rest ih =>
    simp only [insertionIdx, List.orderedInsert]
    by_cases hx : t ≤ x
    · rw [if_pos hx, if_pos hx]
      rfl
    · rw [if_neg hx, if_neg hx, List.insertIdx_succ_cons, ih]

theorem sorted_le_getLastD {l : List ℚ} (h : l.Sorted (· ≤ ·)) :
    ∀ x ∈ l, x ≤ l.getLastD 0 := by
  induction l with
  | nil => simp
  | cons a l ih =>
    intro x hx
    rcases List.mem_cons.1 hx with rfl | hmem
    · rcases l with _ | ⟨b, l'⟩
      · simp [List.getLastD]
      · have hab : x ≤ b := (List.sorted_cons.1 h).1 b (by simp)
        have hb := ih (List.sorted_cons.1 h).2 b (by simp)
        simpa [List.getLastD] using le_trans hab hb
    · rcases l with _ | ⟨b, l'⟩
      · simp at hmem
      · have := ih (List.sorted_cons.1 h).2 x hmem
        simpa [List.getLastD] using this

/-- The embedded `insert_data_by_timestamp` touches only the point and
time sequences. -/
theorem insert_data_fields_unchanged (s : LiveState) (p : DataPoint) (t : ℚ) :
    (insert_data_by_timestamp s p t).all_fields = s.all_fields ∧
    (insert_data_by_timestamp s p t).live_channels = s.live_channels := by
  unfold insert_data_by_timestamp
  split
  · exact ⟨rfl, rfl⟩
  · split
    · exact ⟨rfl, rfl⟩
    · split
      · exact ⟨rfl, rfl⟩
      · exact ⟨rfl, rfl⟩

theorem insert_data_lengths (s : LiveState) (p : DataPoint) (t : ℚ)
    (hsync : s.live_data_points.length = s.live_times.length) :
    (insert_data_by_timestamp s p t).live_times.length = s.live_times.length + 1 ∧
    (insert_data_by_timestamp s p t).live_data_points.length =
      s.live_data_points.length + 1 := by
  unfold insert_data_by_timestamp
  split
  · simp
  · split
    · simp
    · split
      · simp
      · next hni =>
        constructor
        · exact List.length_insertIdx _ _ (insertionIdx_le s.live_times t)
        · exact List.length_insertIdx _ _ (by
            have h1 := insertionIdx_le s.live_times t
            omega)

theorem insert_data_times_out_of_order (s : LiveState) (p : DataPoint) (t : ℚ)
    (hne : s.live_times ≠ []) (hlt : t < s.live_times.getLastD 0) :
    (insert_data_by_timestamp s p t).live_times =
      s.live_times.insertIdx (insertionIdx s.live_times t) t ∧
    (insert_data_by_timestamp s p t).live_data_points =
      s.live_data_points.insertIdx (insertionIdx s.live_times t) p := by
  have hidx : insertionIdx s.live_times t < s.live_times.length :=
    insertionIdx_lt s.live_times t hne (le_of_lt hlt)
  unfold insert_data_by_timestamp
  rw [if_neg hne, if_neg (by exact not_le.2 hlt), if_neg (by omega)]
  exact ⟨rfl, rfl⟩

theorem insert_data_times_sorted (s : LiveState) (p : DataPoint) (t : ℚ)
    (h : s.live_times.Sorted (· ≤ ·)) :
    (insert_data_by_timestamp s p t).live_times.Sorted (· ≤ ·) := by
  unfold insert_data_by_timestamp
  split
  · next he =>
    rw [he]
    simp
  · next he =>
    split
    · next hle =>
      rw [List.Sorted, List.pairwise_append]
      refine ⟨h, by simp, ?_⟩
      intro a ha b hb
      rw [List.mem_singleton] at hb
      subst hb
      exact le_trans (sorted_le_getLastD h a ha) hle
    · split
      · next hni =>
        exfalso
        have := insertionIdx_lt s.live_times t he (le_of_lt (not_le.1 (by assumption)))
        omega
      · rw [insertIdx_insertionIdx_eq_orderedInsert]
        exact List.Sorted.orderedInsert t _ h

theorem appendChannel_skip (chs : List (String × List ℚ)) (f g : String) (v : ℚ)
    (hne : g ≠ f) (l : List ℚ) :
    appendChannel ((g, l) :: chs) f v = (g, l) :: appendChannel chs f v := by
  simp only [appendChannel, if_neg hne]

theorem updateChannels_skip (gs : List String) (p : DataPoint) (f : String)
    (l : List ℚ) (rest : List (String × List ℚ)) (hf : f ∉ gs) :
    updateChannels gs p ((f, l) :: rest) = (f, l) :: updateChannels gs p rest := by
  induction gs generalizing rest with
  | nil => rfl
  | cons g gs ih =>
    have hgf : f ≠ g := fun h => hf (h ▸ List.mem_cons_self g gs)
    show updateChannels gs p (appendChannel ((f, l) :: rest) g (getField p g)) =
      (f, l) :: updateChannels gs p (appendChannel rest g (getField p g))
    rw [appendChannel_skip rest g f (getField p g) hgf l]
    exact ih (appendChannel rest g (getField p g)) (fun h => hf (List.mem_cons_of_mem g h))

theorem updateChannels_keyed (fields : List String) (p : DataPoint)
    (chs : List (String × List ℚ)) (hk : chs.map Prod.fst = fields)
    (hnd : fields.Nodup) :
    updateChannels fields p chs =
      chs.map (fun c => (c.1, c.2 ++ [getField p c.1])) := by
  induction chs generalizing fields with
  | nil =>
    subst hk
    rfl
  | cons c rest ih =>
    obtain ⟨f, l⟩ := c
    subst hk
    simp only [List.map_cons] at hnd ⊢
    have hf : f ∉ rest.map Prod.fst := (List.nodup_cons.1 hnd).1
    simp only [updateChannels, List.foldl_cons]
    rw [show appendChannel ((f, l) :: rest) f (getField p f) =
        (f, l ++ [getField p f]) :: rest by simp [appendChannel]]
    rw [show (List.foldl (fun acc g => appendChannel acc g (getField p g))
        ((f, l ++ [getField p f]) :: rest) (rest.map Prod.fst)) =
        updateChannels (rest.map Prod.fst) p ((f, l ++ [getField p f]) :: rest) from rfl]
    rw [updateChannels_skip _ p f _ rest hf]
    congr 1
    exact ih _ rfl (List.nodup_cons.1 hnd).2

theorem updateChannels_seed (fields : List String) (p : DataPoint)
    (hnd : fields.Nodup) :
    updateChannels fields p [] = fields.map (fun f => (f, [getField p f])) := by
  induction fields with
  | nil => rfl
  | cons f fs ih =>
    show updateChannels fs p (appendChannel [] f (getField p f)) =
      (f, [getField p f]) :: fs.map (fun g => (g, [getField p g]))
    show updateChannels fs p [(f, [getField p f])] =
      (f, [getField p f]) :: fs.map (fun g => (g, [getField p g]))
    rw [show ([(f, [getField p f])] : List (String × List ℚ)) =
      (f, [getField p f]) :: [] from rfl]
    rw [updateChannels_skip fs p f _ [] (List.nodup_cons.1 hnd).1]
    congr 1
    exact ih (List.nodup_cons.1 hnd).2

theorem popChannel_skip (chs : List (String × List ℚ)) (f g : String) (l : List ℚ)
    (hne : g ≠ f) :
    popChannel ((g, l) :: chs) f = (g, l) :: popChannel chs f := by
  simp only [popChannel, if_neg hne]

theorem popChannels_skip (gs : List String) (f : String) (l : List ℚ)
    (rest : List (String × List ℚ)) (hf : f ∉ gs) :
    popChannels gs ((f, l) :: rest) = (f, l) :: popChannels gs rest := by
  induction gs generalizing rest with
  | nil => rfl
  | cons g gs ih =>
    have hgf : f ≠ g := fun h => hf (h ▸ List.mem_cons_self g gs)
    show popChannels gs (popChannel ((f, l) :: rest) g) =
      (f, l) :: popChannels gs (popChannel rest g)
    rw [popChannel_skip rest g f l hgf]
    exact ih (popChannel rest g) (fun h => hf (List.mem_cons_of_mem g h))

theorem popChannels_keyed (fields : List String) (chs : List (String × List ℚ))
    (hk : chs.map Prod.fst = fields) (hnd : fields.Nodup) :
    popChannels fields chs =
      chs.map (fun c => (c.1, if c.2 = [] then c.2 else c.2.tail)) := by
  induction chs generalizing fields with
  | nil =>
    subst hk
    rfl
  | cons c rest ih =>
    obtain ⟨f, l⟩ := c
    subst hk
    simp only [List.map_cons] at hnd ⊢
    have hf : f ∉ rest.map Prod.fst := (List.nodup_cons.1 hnd).1
    show popChannels (rest.map Prod.fst) (popChannel ((f, l) :: rest) f) = _
    rw [show popChannel ((f, l) :: rest) f =
        (f, if l = [] then l else l.tail) :: rest by simp [popChannel]]
    rw [popChannels_skip _ f _ rest hf]
    congr 1
    exact ih _ rfl (List.nodup_cons.1 hnd).2

theorem chLookup_appendChannel (chs : List (String × List ℚ)) (f g : String) (v : ℚ) :
    chLookup (appendChannel chs g v) f =
      if f = g then
        some ((chLookup chs g).getD [] ++ [v])
      else chLookup chs f := by
  induction chs with
  | nil =>
    simp only [appendChannel, chLookup]
    by_cases hfg : f = g
    · subst hfg
      rw [if_pos rfl, if_pos rfl]
      rfl
    · rw [if_neg (fun h => hfg h.symm), if_neg hfg]
  | cons c rest ih =>
    obtain ⟨h, l⟩ := c
    by_cases hhg : h = g
    · subst hhg
      simp only [appendChannel, if_pos rfl, chLookup]
      by_cases hfh : f = h
      · subst hfh
        simp
      · rw [if_neg (fun hh => hfh hh.symm), if_neg hfh, if_neg (fun hh => hfh hh.symm)]
    · simp only [appendChannel, if_neg hhg, chLookup, if_neg hhg]
      by_cases hhf : h = f
      · subst hhf
        rw [if_pos rfl, if_neg (fun hfg : h = g => hhg hfg), if_pos rfl]
      · rw [if_neg hhf, if_neg hhf, ih]

theorem chLookup_updateChannels_mono (fields : List String) (p : DataPoint)
    (f : String) :
    ∀ (chs : List (String × List ℚ)) (l : List ℚ), chLookup chs f = some l →
      ∃ l', chLookup (updateChannels fields p chs) f = some (l ++ l') := by
  induction fields with
  | nil =>
    intro chs l h
    exact ⟨[], by simpa using h⟩
  | cons g gs ih =>
    intro chs l h
    show ∃ l', chLookup (updateChannels gs p (appendChannel chs g (getField p g))) f =
      some (l ++ l')
    by_cases hfg : f = g
    · subst hfg
      have hstep : chLookup (appendChannel chs f (getField p f)) f =
          some (l ++ [getField p f]) := by
        rw [chLookup_appendChannel, if_pos rfl, h]
        rfl
      obtain ⟨l', hl'⟩ := ih _ _ hstep
      exact ⟨[getField p f] ++ l', by rw [hl', List.append_assoc]⟩
    · have hstep : chLookup (appendChannel chs g (getField p g)) f = some l := by
        rw [chLookup_appendChannel, if_neg hfg, h]
      exact ih _ _ hstep

theorem sublist_insertIdx (l : List ℚ) (i : ℕ) (a : ℚ) : l.Sublist (l.insertIdx i a) := by
  induction l generalizing i with
  | nil =>
    cases i
    · simp
    · simp [List.insertIdx_succ_nil]
  | cons x l ih =>
    cases i with
    | zero =>
      rw [List.insertIdx_zero]
      exact List.sublist_cons_self a (x :: l) |>.trans (List.Sublist.refl _) |>.trans
        (List.Sublist.refl _)
    | succ n =>
      rw [List.insertIdx_succ_cons]
      exact List.Sublist.cons₂ x (ih n)

/-- The well-formedness invariant of the live store: point and timestamp
sequences in lockstep, channels keyed exactly by `all_fields` with
distinct keys, every channel aligned in length with the timestamps, and —
before schema discovery has happened — an empty store. -/
def LiveWF (s : LiveState) : Prop :=
  s.live_data_points.length = s.live_times.length ∧
  s.live_channels.map Prod.fst = s.all_fields ∧
  (∀ c ∈ s.live_channels, c.2.length = s.live_times.length) ∧
  s.all_fields.Nodup ∧
  (s.all_fields = [] → s.live_times = [])

instance (s : LiveState) : Decidable (LiveWF s) := by
  unfold LiveWF
  infer_instance

theorem map_fst_pairs (l : List String) (g : String → List ℚ) :
    (l.map (fun f => (f, g f))).map Prod.fst = l := by
  induction l with
  | nil => rfl
  | cons x l ih => simp only [List.map_cons, ih]

theorem map_fst_mapSnd (l : List (String × List ℚ)) (g : String × List ℚ → List ℚ) :
    (l.map (fun c => (c.1, g c))).map Prod.fst = l.map Prod.fst := by
  simp

theorem process_record_preserves (dm : ℤ) (mp : ℕ) (s : LiveState) (p : DataPoint)
    (t : ℚ) (hWF : LiveWF s)
    (hnd : ((p.map Prod.fst).filter (fun k => k ≠ "time")).Nodup)
    (hne : s.all_fields ≠ [] ∨ (p.map Prod.fst).filter (fun k => k ≠ "time") ≠ []) :
    LiveWF (process_record dm mp s p t) ∧ (process_record dm mp s p t).all_fields ≠ [] := by
  obtain ⟨hsync, hkeys, hlen, hndf, hemp⟩ := hWF
  obtain ⟨h1f, h1c⟩ := insert_data_fields_unchanged s p t
  obtain ⟨h1tl, h1pl⟩ := insert_data_lengths s p t hsync
  set s1 := insert_data_by_timestamp s p t with hs1
  by_cases hsf : s.all_fields = []
  · -- schema discovery: the store was empty, the field set is seeded
    have htimes0 : s.live_times = [] := hemp hsf
    have hch0 : s.live_channels = [] := List.map_eq_nil_iff.1 (hkeys.trans hsf)
    have hder : (p.map Prod.fst).filter (fun k => k ≠ "time") ≠ [] := by
      rcases hne with hL | hR
      · exact absurd hsf hL
      · exact hR
    have hnf : newFields s1 p = (p.map Prod.fst).filter (fun k => k ≠ "time") := by
      rw [newFields, if_pos (h1f.trans hsf)]
    have hs1t : s1.live_times = [t] := by
      rw [hs1]
      unfold insert_data_by_timestamp
      rw [if_pos htimes0, htimes0]
      rfl
    have hs1p : s1.live_data_points.length = 1 := by
      rw [h1pl, hsync, htimes0]
      rfl
    have hch2 : (channelStep s1 p).live_channels =
        ((p.map Prod.fst).filter (fun k => k ≠ "time")).map
          (fun f => (f, [getField p f])) := by
      unfold channelStep
      rw [hnf, h1c, hch0]
      exact updateChannels_seed _ p hnd
    have hcs2 : (channelStep s1 p).all_fields =
        (p.map Prod.fst).filter (fun k => k ≠ "time") := by
      unfold channelStep
      rw [hnf]
    have hcstimes : (channelStep s1 p).live_times = [t] := hs1t
    have hcspts : (channelStep s1 p).live_data_points.length = 1 := hs1p
    unfold process_record evictStep
    rw [← hs1]
    have hkeyseed : ((List.filter (fun k => decide (k ≠ "time"))
        (List.map Prod.fst p)).map (fun f => (f, [getField p f]))).map Prod.fst =
        List.filter (fun k => decide (k ≠ "time")) (List.map Prod.fst p) :=
      map_fst_pairs _ _
    split
    · next hcond =>
      constructor
      · refine ⟨?_, ?_, ?_, ?_, ?_⟩
        · show (channelStep s1 p).live_data_points.tail.length =
            (channelStep s1 p).live_times.tail.length
          rw [List.length_tail, List.length_tail, hcspts, hcstimes]
          rfl
        · show (popChannels (channelStep s1 p).all_fields
            (channelStep s1 p).live_channels).map Prod.fst = (channelStep s1 p).all_fields
          rw [hcs2, hch2, popChannels_keyed _ _ hkeyseed hnd, map_fst_mapSnd, hkeyseed]
        · intro c hc
          rw [hcs2] at hc
          rw [hch2] at hc
          show c.2.length = (channelStep s1 p).live_times.tail.length
          rw [popChannels_keyed _ _ hkeyseed hnd, List.map_map] at hc
          obtain ⟨f, hf, hfc⟩ := List.mem_map.1 hc
          rw [← hfc]
          simp [hcstimes]
        · rw [hcs2]
          exact hnd
        · intro h
          rw [hcs2] at h
          exact absurd h hder
      · rw [hcs2]
        exact hder
    · constructor
      · refine ⟨?_, ?_, ?_, ?_, ?_⟩
        · show (channelStep s1 p).live_data_points.length =
            (channelStep s1 p).live_times.length
          rw [hcspts, hcstimes]
          rfl
        · rw [hcs2, hch2, hkeyseed]
        · intro c hc
          rw [hch2] at hc
          obtain ⟨f, hf, hfc⟩ := List.mem_map.1 hc
          rw [← hfc]
          simp [hcstimes]
        · rw [hcs2]
          exact hnd
        · intro h
          rw [hcs2] at h
          exact absurd h hder
      · rw [hcs2]
        exact hder
  · -- established schema: fields unchanged, every channel appended once
    have hnf : newFields s1 p = s.all_fields := by
      rw [newFields, if_neg (by rw [h1f]; exact hsf), h1f]
    have hch2 : (channelStep s1 p).live_channels =
        s.live_channels.map (fun c => (c.1, c.2 ++ [getField p c.1])) := by
      unfold channelStep
      rw [hnf, h1c]
      exact updateChannels_keyed _ p _ hkeys hndf
    have hcs2 : (channelStep s1 p).all_fields = s.all_fields := by
      unfold channelStep
      rw [hnf]
    have hcstimes : (channelStep s1 p).live_times = s1.live_times := rfl
    have hcstl : (channelStep s1 p).live_times.length = s.live_times.length + 1 := h1tl
    have hcspl : (channelStep s1 p).live_data_points.length =
        s.live_data_points.length + 1 := h1pl
    have hkeys2 : (channelStep s1 p).live_channels.map Prod.fst = s.all_fields := by
      rw [hch2, List.map_map]
      exact hkeys
    have hlen2 : ∀ c ∈ (channelStep s1 p).live_channels,
        c.2.length = s.live_times.length + 1 := by
      intro c hc
      rw [hch2] at hc
      obtain ⟨d, hd, hdc⟩ := List.mem_map.1 hc
      rw [← hdc]
      simp [hlen d hd]
    unfold process_record evictStep
    rw [← hs1]
    split
    · next hcond =>
      refine ⟨⟨?_, ?_, ?_, ?_, ?_⟩, ?_⟩
      · show (channelStep s1 p).live_data_points.tail.length =
          (channelStep s1 p).live_times.tail.length
        rw [List.length_tail, List.length_tail, hcstl, hcspl, hsync]
      · show (popChannels (channelStep s1 p).all_fields
          (channelStep s1 p).live_channels).map Prod.fst = (channelStep s1 p).all_fields
        rw [hcs2, popChannels_keyed _ _ hkeys2 hndf, map_fst_mapSnd, hkeys2]
      · intro c hc
        show c.2.length = (channelStep s1 p).live_times.tail.length
        rw [hcs2, popChannels_keyed _ _ hkeys2 hndf] at hc
        obtain ⟨d, hd, hdc⟩ := List.mem_map.1 hc
        have hdl := hlen2 d hd
        have hdne : d.2 ≠ [] := by
          intro hnil
          rw [hnil] at hdl
          simp at hdl
        rw [← hdc]
        simp only [if_neg hdne]
        rw [List.length_tail, List.length_tail, hdl, hcstimes, h1tl]
      · rw [hcs2]
        exact hndf
      · intro h
        rw [hcs2] at h
        exact absurd h hsf
      · rw [hcs2]
        exact hsf
    · refine ⟨⟨?_, ?_, ?_, ?_, ?_⟩, ?_⟩
      · rw [hcspl, hcstl, hsync]
      · rw [← hcs2] at hkeys2
        exact hkeys2
      · intro c hc
        rw [hcstimes, h1tl]
        exact hlen2 c hc
      · rw [hcs2]
        exact hndf
      · intro h
        rw [hcs2] at h
        exact absurd h hsf
      · rw [hcs2]
        exact hsf

/-- The seeding condition a drain cycle needs when the schema is still
undiscovered: the first drained record (if any) carries at least one
non-`time` field. -/
def FirstSeeded (buf : List (DataPoint × ℚ)) : Prop :=
  match buf with
  | [] => True
  | r :: _ => (r.1.map Prod.fst).filter (fun k => k ≠ "time") ≠ []

instance (buf : List (DataPoint × ℚ)) : Decidable (FirstSeeded buf) := by
  unfold FirstSeeded
  cases buf <;> infer_instance

theorem process_data_buffer_preserves (dm : ℤ) (mp : ℕ)
    (buf : List (DataPoint × ℚ)) :
    ∀ s : LiveState, LiveWF s →
      (∀ r ∈ buf, ((r.1.map Prod.fst).filter (fun k => k ≠ "time")).Nodup) →
      (s.all_fields = [] → FirstSeeded buf) →
      LiveWF (process_data_buffer dm mp s buf) := by
  induction buf with
  | nil =>
    intro s h _ _
    exact h
  | cons r rest ih =>
    intro s hWF hnd hseed
    show LiveWF (process_data_buffer dm mp (process_record dm mp s r.1 r.2) rest)
    have hne : s.all_fields ≠ [] ∨
        (r.1.map Prod.fst).filter (fun k => k ≠ "time") ≠ [] := by
      by_cases h : s.all_fields = []
      · exact Or.inr (hseed h)
      · exact Or.inl h
    obtain ⟨hWF', hne'⟩ := process_record_preserves dm mp s r.1 r.2 hWF
      (hnd r (List.mem_cons_self r rest)) hne
    exact ih _ hWF' (fun q hq => hnd q (List.mem_cons_of_mem r hq))
      (fun h => absurd h hne')

/-- C1 (amended): a drain cycle preserves the equal-length invariant
between `live_times` and every channel of `live_channels`, provided the
session's first schema-bearing record comes no later than its first
record — i.e. when the store's field set is still undiscovered, the first
drained record must carry at least one non-`time` field (each record's
keys are distinct, as Python dict keys are). Without that proviso the
invariant fails (see the counterexample): a record with no device fields
leaves `all_fields` empty, so a later record seeds fresh channels of
length 1 while `live_times` has already grown. -/
theorem C1_drain_preserves_channel_alignment (dm : ℤ) (mp : ℕ) (s : LiveState)
    (buf : List (DataPoint × ℚ)) (hWF : LiveWF s)
    (hnd : ∀ r ∈ buf, ((r.1.map Prod.fst).filter (fun k => k ≠ "time")).Nodup)
    (hseed : s.all_fields = [] → FirstSeeded buf) :
    ∀ c ∈ (process_data_buffer dm mp s buf).live_channels,
      c.2.length = (process_data_buffer dm mp s buf).live_times.length :=
  (process_data_buffer_preserves dm mp buf s hWF hnd hseed).2.2.1

/-- A one-record drain from a fresh session used to witness C1. -/
def C1exampleBuf : List (DataPoint × ℚ) :=
  [([("time", 0), ("GSE-1_volt", 5)], 0)]

/-- Witness for C1 on a fresh session and one telemetry record. -/
theorem C1_witness :
    (LiveWF freshLive ∧
      (∀ r ∈ C1exampleBuf, ((r.1.map Prod.fst).filter (fun k => k ≠ "time")).Nodup) ∧
      (freshLive.all_fields = [] → FirstSeeded C1exampleBuf)) ∧
    (∀ c ∈ (process_data_buffer 0 10000 freshLive C1exampleBuf).live_channels,
      c.2.length = (process_data_buffer 0 10000 freshLive C1exampleBuf).live_times.length) :=
  ⟨⟨by decide, by decide, by decide⟩,
    C1_drain_preserves_channel_alignment 0 10000 freshLive C1exampleBuf
      (by decide) (by decide) (by decide)⟩

/-- A drain cycle whose first record carries no device fields: the second
record then seeds channels of length 1 under timestamps of length 2. -/
def C1ctrBuf : List (DataPoint × ℚ) :=
  [([("time", 0)], 0), ([("time", 1000), ("GSE-1_volt", 5)], 1)]

/-- Counterexample to C1 as stated: after draining `C1ctrBuf` from a
fresh session, `live_times` has length 2 but the `GSE-1_volt` channel has
length 1 — the store invariant does not hold for every record
sequence. -/
theorem C1_counterexample :
    (process_data_buffer 0 10000 freshLive C1ctrBuf).live_times = [0, 1] ∧
    (process_data_buffer 0 10000 freshLive C1ctrBuf).live_channels =
      [("GSE-1_volt", [5])] ∧
    ¬ (∀ c ∈ (process_data_buffer 0 10000 freshLive C1ctrBuf).live_channels,
        c.2.length = (process_data_buffer 0 10000 freshLive C1ctrBuf).live_times.length) := by
  refine ⟨by decide, by decide, ?_⟩
  intro h
  have := h ("GSE-1_volt", [5]) (by decide)
  revert this
  decide

theorem insert_data_times_length (s : LiveState) (p : DataPoint) (t : ℚ) :
    (insert_data_by_timestamp s p t).live_times.length = s.live_times.length + 1 := by
  unfold insert_data_by_timestamp
  split
  · simp
  · split
    · simp
    · split
      · simp
      · exact List.length_insertIdx _ _ (insertionIdx_le s.live_times t)

theorem insert_data_times_sublist (s : LiveState) (p : DataPoint) (t : ℚ) :
    s.live_times.Sublist (insert_data_by_timestamp s p t).live_times := by
  unfold insert_data_by_timestamp
  split
  · exact List.sublist_append_left _ _
  · split
    · exact List.sublist_append_left _ _
    · split
      · exact List.sublist_append_left _ _
      · exact sublist_insertIdx _ _ _

theorem evictStep_keepAll (dm : ℤ) (mp : ℕ) (s2 : LiveState) (hdm : dm ≠ 0) :
    evictStep dm mp s2 = s2 := by
  unfold evictStep
  rw [if_neg]
  rintro ⟨_, h⟩
  exact hdm h

theorem process_record_keepAll (dm : ℤ) (mp : ℕ) (s : LiveState) (p : DataPoint)
    (t : ℚ) (hdm : dm ≠ 0) :
    (process_record dm mp s p t).live_times.length = s.live_times.length + 1 ∧
    s.live_times.Sublist (process_record dm mp s p t).live_times ∧
    (∀ f l, chLookup s.live_channels f = some l →
      ∃ l', chLookup (process_record dm mp s p t).live_channels f = some (l ++ l')) := by
  obtain ⟨h1f, h1c⟩ := insert_data_fields_unchanged s p t
  unfold process_record
  rw [evictStep_keepAll dm mp _ hdm]
  refine ⟨?_, ?_, ?_⟩
  · show (insert_data_by_timestamp s p t).live_times.length = _
    exact insert_data_times_length s p t
  · show s.live_times.Sublist (insert_data_by_timestamp s p t).live_times
    exact insert_data_times_sublist s p t
  · intro f l hl
    show ∃ l', chLookup (updateChannels _ p (insert_data_by_timestamp s p t).live_channels) f =
      some (l ++ l')
    exact chLookup_updateChannels_mono _ p f _ l (by rw [h1c]; exact hl)

theorem process_data_buffer_keepAll (dm : ℤ) (mp : ℕ) (hdm : dm ≠ 0)
    (buf : List (DataPoint × ℚ)) :
    ∀ s : LiveState,
      (process_data_buffer dm mp s buf).live_times.length =
        s.live_times.length + buf.length ∧
      s.live_times.Sublist (process_data_buffer dm mp s buf).live_times ∧
      (∀ f l, chLookup s.live_channels f = some l →
        ∃ l', chLookup (process_data_buffer dm mp s buf).live_channels f = some (l ++ l')) := by
  induction buf with
  | nil =>
    intro s
    refine ⟨by simp [process_data_buffer], List.Sublist.refl _, ?_⟩
    intro f l hl
    exact ⟨[], by simpa [process_data_buffer] using hl⟩
  | cons r rest ih =>
    intro s
    obtain ⟨hlen1, hsub1, hmono1⟩ := process_record_keepAll dm mp s r.1 r.2 hdm
    obtain ⟨hlen2, hsub2, hmono2⟩ := ih (process_record dm mp s r.1 r.2)
    refine ⟨?_, ?_, ?_⟩
    · show (process_data_buffer dm mp (process_record dm mp s r.1 r.2) rest).live_times.length = _
      rw [hlen2, hlen1, List.length_cons]
      omega
    · exact hsub1.trans hsub2
    · intro f l hl
      obtain ⟨l', hl'⟩ := hmono1 f l hl
      obtain ⟨l'', hl''⟩ := hmono2 f (l ++ l') hl'
      refine ⟨l' ++ l'', ?_⟩
      show chLookup
        (process_data_buffer dm mp (process_record dm mp s r.1 r.2) rest).live_channels f =
        some (l ++ (l' ++ l''))
      rw [hl'', List.append_assoc]

/-- The spec's retention example: five records with timestamps 1..5 and
one channel taking values 10..50. -/
def C4scrollBuf : List (DataPoint × ℚ) :=
  [([("time", 1000), ("GSE-1_volt", 10)], 1),
   ([("time", 2000), ("GSE-1_volt", 20)], 2),
   ([("time", 3000), ("GSE-1_volt", 30)], 3),
   ([("time", 4000), ("GSE-1_volt", 40)], 4),
   ([("time", 5000), ("GSE-1_volt", 50)], 5)]

theorem process_record_scroll_evict (mp : ℕ) (s : LiveState) (p : DataPoint)
    (t : ℚ) (hWF : LiveWF s) (hnef : s.all_fields ≠ [])
    (hover : s.live_times.length + 1 > mp) :
    (process_record 0 mp s p t).live_times =
      (insert_data_by_timestamp s p t).live_times.tail ∧
    (process_record 0 mp s p t).live_data_points =
      (insert_data_by_timestamp s p t).live_data_points.tail ∧
    (process_record 0 mp s p t).live_channels =
      s.live_channels.map (fun c => (c.1, (c.2 ++ [getField p c.1]).tail)) := by
  obtain ⟨hsync, hkeys, hlen, hndf, hemp⟩ := hWF
  obtain ⟨h1f, h1c⟩ := insert_data_fields_unchanged s p t
  obtain ⟨h1tl, h1pl⟩ := insert_data_lengths s p t hsync
  have hnf : newFields (insert_data_by_timestamp s p t) p = s.all_fields := by
    rw [newFields, if_neg (by rw [h1f]; exact hnef), h1f]
  have hch2 : (channelStep (insert_data_by_timestamp s p t) p).live_channels =
      s.live_channels.map (fun c => (c.1, c.2 ++ [getField p c.1])) := by
    unfold channelStep
    rw [hnf, h1c]
    exact updateChannels_keyed _ p _ hkeys hndf
  have hcs2 : (channelStep (insert_data_by_timestamp s p t) p).all_fields =
      s.all_fields := by
    unfold channelStep
    rw [hnf]
  have hkeys2 : (channelStep (insert_data_by_timestamp s p t) p).live_channels.map
      Prod.fst = s.all_fields := by
    rw [hch2, map_fst_mapSnd]
    exact hkeys
  have hcond : (channelStep (insert_data_by_timestamp s p t) p).live_data_points.length
      > mp ∧ (0 : ℤ) = 0 := by
    constructor
    · have e1 : (channelStep (insert_data_by_timestamp s p t)
          p).live_data_points.length = s.live_data_points.length + 1 := h1pl
      omega
    · rfl
  unfold process_record evictStep
  rw [if_pos hcond]
  refine ⟨rfl, rfl, ?_⟩
  show popChannels (channelStep (insert_data_by_timestamp s p t) p).all_fields
    (channelStep (insert_data_by_timestamp s p t) p).live_channels = _
  rw [hcs2, popChannels_keyed _ _ hkeys2 hndf]
  rw [hch2, List.map_map]
  congr 1
  funext c
  simp only [Function.comp_apply]
  rw [if_neg (by simp)]

theorem process_record_scroll_keep (mp : ℕ) (s : LiveState) (p : DataPoint)
    (t : ℚ) (hWF : LiveWF s) (hnef : s.all_fields ≠ [])
    (hunder : s.live_times.length + 1 ≤ mp) :
    (process_record 0 mp s p t).live_times =
      (insert_data_by_timestamp s p t).live_times ∧
    (process_record 0 mp s p t).live_data_points =
      (insert_data_by_timestamp s p t).live_data_points ∧
    (process_record 0 mp s p t).live_channels =
      s.live_channels.map (fun c => (c.1, c.2 ++ [getField p c.1])) := by
  obtain ⟨hsync, hkeys, hlen, hndf, hemp⟩ := hWF
  obtain ⟨h1f, h1c⟩ := insert_data_fields_unchanged s p t
  obtain ⟨h1tl, h1pl⟩ := insert_data_lengths s p t hsync
  have hnf : newFields (insert_data_by_timestamp s p t) p = s.all_fields := by
    rw [newFields, if_neg (by rw [h1f]; exact hnef), h1f]
  have hch2 : (channelStep (insert_data_by_timestamp s p t) p).live_channels =
      s.live_channels.map (fun c => (c.1, c.2 ++ [getField p c.1])) := by
    unfold channelStep
    rw [hnf, h1c]
    exact updateChannels_keyed _ p _ hkeys hndf
  have hcond : ¬ ((channelStep (insert_data_by_timestamp s p t)
      p).live_data_points.length > mp ∧ (0 : ℤ) = 0) := by
    rintro ⟨hgt, _⟩
    have e1 : (channelStep (insert_data_by_timestamp s p t)
        p).live_data_points.length = s.live_data_points.length + 1 := h1pl
    omega
  unfold process_record evictStep
  rw [if_neg hcond]
  exact ⟨rfl, rfl, hch2⟩

theorem process_record_scroll_bound (mp : ℕ) (s : LiveState) (p : DataPoint)
    (t : ℚ) (hsync : s.live_data_points.length = s.live_times.length)
    (hle : s.live_times.length ≤ mp) :
    (process_record 0 mp s p t).live_data_points.length =
      (process_record 0 mp s p t).live_times.length ∧
    (process_record 0 mp s p t).live_times.length ≤ mp := by
  obtain ⟨h1tl, h1pl⟩ := insert_data_lengths s p t hsync
  have e1 : (channelStep (insert_data_by_timestamp s p t)
      p).live_data_points.length = s.live_data_points.length + 1 := h1pl
  have e2 : (channelStep (insert_data_by_timestamp s p t)
      p).live_times.length = s.live_times.length + 1 := h1tl
  unfold process_record evictStep
  by_cases hc : (channelStep (insert_data_by_timestamp s p t)
      p).live_data_points.length > mp ∧ (0 : ℤ) = 0
  · rw [if_pos hc]
    constructor
    · show (channelStep (insert_data_by_timestamp s p t) p).live_data_points.tail.length =
        (channelStep (insert_data_by_timestamp s p t) p).live_times.tail.length
      rw [List.length_tail, List.length_tail]
      omega
    · show (channelStep (insert_data_by_timestamp s p t) p).live_times.tail.length ≤ mp
      rw [List.length_tail]
      obtain ⟨hgt, _⟩ := hc
      omega
  · rw [if_neg hc]
    have hA : ¬ ((channelStep (insert_data_by_timestamp s p t)
        p).live_data_points.length > mp) := fun h => hc ⟨h, rfl⟩
    exact ⟨by omega, by omega⟩

theorem process_data_buffer_scroll_bound (mp : ℕ) (buf : List (DataPoint × ℚ)) :
    ∀ s : LiveState, s.live_data_points.length = s.live_times.length →
      s.live_times.length ≤ mp →
      (process_data_buffer 0 mp s buf).live_data_points.length =
        (process_data_buffer 0 mp s buf).live_times.length ∧
      (process_data_buffer 0 mp s buf).live_times.length ≤ mp := by
  induction buf with
  | nil =>
    intro s hsync hle
    exact ⟨hsync, hle⟩
  | cons r rest ih =>
    intro s hsync hle
    obtain ⟨hsync', hle'⟩ := process_record_scroll_bound mp s r.1 r.2 hsync hle
    exact ih (process_record 0 mp s r.1 r.2) hsync' hle'

/-- C4: retention. Under Scroll (`data_mode == 0`), after any record is
applied to any well-formed store with an established schema: whenever the
post-insert store length exceeds `max_live_points` the oldest timestamp,
the oldest point, and the oldest element of every channel are evicted
(the result holds every channel appended-then-popped); when it does not
exceed the cap, nothing is evicted; and a whole Scroll drain keeps the
store length within the cap. Concretely, with `max_live_points = 3`
draining timestamps `[1,2,3,4,5]` leaves exactly `[3,4,5]` and the
channel's last three values in order. Under KeepAll (`data_mode ≠ 0`) a
drain never evicts: the timestamp count grows by exactly the number of
drained records, the old timestamps survive in order, and every existing
channel keeps its old contents as a prefix. -/
theorem C4_retention_policies (dm : ℤ) (mp : ℕ) (s : LiveState)
    (buf : List (DataPoint × ℚ)) (hdm : dm ≠ 0) :
    ((process_data_buffer dm mp s buf).live_times.length =
        s.live_times.length + buf.length ∧
      s.live_times.Sublist (process_data_buffer dm mp s buf).live_times ∧
      (∀ f l, chLookup s.live_channels f = some l →
        ∃ l', chLookup (process_data_buffer dm mp s buf).live_channels f =
          some (l ++ l'))) ∧
    (∀ (mp' : ℕ) (s' : LiveState) (p : DataPoint) (t : ℚ),
      LiveWF s' → s'.all_fields ≠ [] → s'.live_times.length + 1 > mp' →
      (process_record 0 mp' s' p t).live_times =
        (insert_data_by_timestamp s' p t).live_times.tail ∧
      (process_record 0 mp' s' p t).live_data_points =
        (insert_data_by_timestamp s' p t).live_data_points.tail ∧
      (process_record 0 mp' s' p t).live_channels =
        s'.live_channels.map (fun c => (c.1, (c.2 ++ [getField p c.1]).tail))) ∧
    (∀ (mp' : ℕ) (s' : LiveState) (p : DataPoint) (t : ℚ),
      LiveWF s' → s'.all_fields ≠ [] → s'.live_times.length + 1 ≤ mp' →
      (process_record 0 mp' s' p t).live_times =
        (insert_data_by_timestamp s' p t).live_times ∧
      (process_record 0 mp' s' p t).live_data_points =
        (insert_data_by_timestamp s' p t).live_data_points ∧
      (process_record 0 mp' s' p t).live_channels =
        s'.live_channels.map (fun c => (c.1, c.2 ++ [getField p c.1]))) ∧
    (∀ (mp' : ℕ) (buf' : List (DataPoint × ℚ)) (s' : LiveState),
      s'.live_data_points.length = s'.live_times.length →
      s'.live_times.length ≤ mp' →
      (process_data_buffer 0 mp' s' buf').live_times.length ≤ mp') ∧
    (process_data_buffer 0 3 freshLive C4scrollBuf).live_times = [3, 4, 5] ∧
    (process_data_buffer 0 3 freshLive C4scrollBuf).live_channels =
      [("GSE-1_volt", [30, 40, 50])] :=
  ⟨process_data_buffer_keepAll dm mp hdm buf s,
   fun mp' s' p t hWF hnef hover =>
     process_record_scroll_evict mp' s' p t hWF hnef hover,
   fun mp' s' p t hWF hnef hunder =>
     process_record_scroll_keep mp' s' p t hWF hnef hunder,
   fun mp' buf' s' hsync hle =>
     (process_data_buffer_scroll_bound mp' buf' s' hsync hle).2,
   by decide, by decide⟩

/-- A well-formed store with established schema holding two points, used
to witness the general Scroll eviction clause of C4. -/
def C4fullState : LiveState :=
  ⟨[[("time", 0), ("GSE-1_volt", 10)], [("time", 10000), ("GSE-1_volt", 20)]],
   [0, 10], ["GSE-1_volt"], [("GSE-1_volt", [10, 20])]⟩

/-- The record pushed into `C4fullState` in the C4 witness. -/
def C4newPoint : DataPoint := [("time", 20000), ("GSE-1_volt", 30)]

/-- Witness for C4: the KeepAll clause at a concrete drain, the general
Scroll eviction clause at a concrete over-full store, and the Scroll
length bound at a concrete state. -/
theorem C4_witness :
    ((1 : ℤ) ≠ 0 ∧ LiveWF C4fullState ∧ C4fullState.all_fields ≠ [] ∧
      C4fullState.live_times.length + 1 > 2 ∧
      C4fullState.live_data_points.length = C4fullState.live_times.length ∧
      C4fullState.live_times.length ≤ 2) ∧
    (process_data_buffer 1 3 freshLive C4scrollBuf).live_times.length =
      freshLive.live_times.length + C4scrollBuf.length ∧
    (process_record 0 2 C4fullState C4newPoint 20).live_times =
      (insert_data_by_timestamp C4fullState C4newPoint 20).live_times.tail ∧
    (process_data_buffer 0 2 C4fullState []).live_times.length ≤ 2 :=
  ⟨⟨by decide, by decide, by decide, by decide, by decide, by decide⟩,
   (C4_retention_policies 1 3 freshLive C4scrollBuf (by decide)).1.1,
   ((C4_retention_policies 1 3 freshLive C4scrollBuf (by decide)).2.1 2 C4fullState
     C4newPoint 20 (by decide) (by decide) (by decide)).1,
   (C4_retention_policies 1 3 freshLive C4scrollBuf (by decide)).2.2.2.1 2 []
     C4fullState (by decide) (by decide)⟩

/-- C2 (amended): for a late point with an out-of-order timestamp,
`insert_data_by_timestamp` inserts the point and its timestamp at the
position of the first existing timestamp greater than **or equal to** it
(i.e. `List.orderedInsert (· ≤ ·)` — before any equal timestamp, not a
stable insert after them), so the stored timestamp sequence stays
non-decreasing; but the drain loop then appends the point's channel
values at the **end** of every channel, so the channels are not
index-aligned with the timestamps at the inserted position. -/
theorem C2_out_of_order_insert (s : LiveState) (p : DataPoint) (t : ℚ)
    (hsorted : s.live_times.Sorted (· ≤ ·)) :
    (insert_data_by_timestamp s p t).live_times.Sorted (· ≤ ·) ∧
    (s.live_times ≠ [] → t < s.live_times.getLastD 0 →
      (insert_data_by_timestamp s p t).live_times =
        List.orderedInsert (· ≤ ·) t s.live_times ∧
      (insert_data_by_timestamp s p t).live_data_points =
        s.live_data_points.insertIdx (insertionIdx s.live_times t) p) ∧
    (∀ dm : ℤ, ∀ mp : ℕ, LiveWF s → s.all_fields ≠ [] →
      s.live_data_points.length + 1 ≤ mp →
      (process_record dm mp s p t).live_channels =
        s.live_channels.map (fun c => (c.1, c.2 ++ [getField p c.1]))) := by
  refine ⟨insert_data_times_sorted s p t hsorted, ?_, ?_⟩
  · intro hne hlt
    obtain ⟨h1, h2⟩ := insert_data_times_out_of_order s p t hne hlt
    exact ⟨by rw [h1, insertIdx_insertionIdx_eq_orderedInsert], h2⟩
  · intro dm mp hWF hnef hcap
    obtain ⟨hsync, hkeys, hlen, hndf, hemp⟩ := hWF
    obtain ⟨h1f, h1c⟩ := insert_data_fields_unchanged s p t
    obtain ⟨h1tl, h1pl⟩ := insert_data_lengths s p t hsync
    have hnf : newFields (insert_data_by_timestamp s p t) p = s.all_fields := by
      rw [newFields, if_neg (by rw [h1f]; exact hnef), h1f]
    have hnoevict : ¬ ((channelStep (insert_data_by_timestamp s p t) p).live_data_points.length
        > mp ∧ dm = 0) := by
      rintro ⟨hgt, _⟩
      have : (channelStep (insert_data_by_timestamp s p t) p).live_data_points.length =
          s.live_data_points.length + 1 := h1pl
      omega
    unfold process_record evictStep
    rw [if_neg hnoevict]
    show updateChannels (newFields (insert_data_by_timestamp s p t) p) p
      (insert_data_by_timestamp s p t).live_channels = _
    rw [hnf, h1c]
    exact updateChannels_keyed _ p _ hkeys hndf

/-- A live store with schema discovered, timestamps `[0, 10]`, and one
channel holding `[10, 20]`. -/
def C2state : LiveState :=
  ⟨[[("time", 0), ("GSE-1_volt", 10)], [("time", 10000), ("GSE-1_volt", 20)]],
   [0, 10], ["GSE-1_volt"], [("GSE-1_volt", [10, 20])]⟩

/-- The late out-of-order point used against `C2state`. -/
def C2newPoint : DataPoint := [("time", 5000), ("GSE-1_volt", 30)]

/-- Witness for C2 (amended) at a concrete out-of-order insertion. -/
theorem C2_witness :
    (C2state.live_times.Sorted (· ≤ ·) ∧ C2state.live_times ≠ [] ∧
      (5 : ℚ) < C2state.live_times.getLastD 0 ∧ LiveWF C2state ∧
      C2state.all_fields ≠ [] ∧ C2state.live_data_points.length + 1 ≤ 10000) ∧
    (insert_data_by_timestamp C2state C2newPoint 5).live_times =
      List.orderedInsert (· ≤ ·) 5 C2state.live_times ∧
    (process_record 0 10000 C2state C2newPoint 5).live_channels =
      C2state.live_channels.map (fun c => (c.1, c.2 ++ [getField C2newPoint c.1])) :=
  ⟨⟨by decide, by decide, by decide, by decide, by decide, by decide⟩,
    ((C2_out_of_order_insert C2state C2newPoint 5 (by decide)).2.1
      (by decide) (by decide)).1,
    (C2_out_of_order_insert C2state C2newPoint 5 (by decide)).2.2 0 10000
      (by decide) (by decide) (by decide)⟩

/-- A drain with an out-of-order third record: times 0, 10, then 5. -/
def C2ctrBuf : List (DataPoint × ℚ) :=
  [([("time", 0), ("GSE-1_volt", 10)], 0),
   ([("time", 10000), ("GSE-1_volt", 20)], 10),
   ([("time", 5000), ("GSE-1_volt", 30)], 5)]

/-- Counterexample to C2 as stated: the late record carrying value 30 is
inserted at timestamp position 1, but the channel then reads
`[10, 20, 30]` — position 1 holds 20, not the carried value 30, so
channels are not index-aligned at the inserted position. Moreover the
insertion position is the first index with an existing timestamp `>=` the
new one, not strictly greater: inserting time 2 into `[1, 2, 3]` goes to
index 1 (before the equal timestamp), while the first strictly-greater
index is 2. -/
theorem C2_counterexample :
    (process_data_buffer 0 10000 freshLive C2ctrBuf).live_times = [0, 5, 10] ∧
    (process_data_buffer 0 10000 freshLive C2ctrBuf).live_channels =
      [("GSE-1_volt", [10, 20, 30])] ∧
    insertionIdx [0, 10] 5 = 1 ∧
    ¬ (((chLookup (process_data_buffer 0 10000 freshLive C2ctrBuf).live_channels
        "GSE-1_volt").getD []).getD 1 0 = 30) ∧
    (([1, 2, 3] : List ℚ).findIdx (fun x => decide ((2 : ℚ) < x)) = 2) ∧
    insertionIdx [1, 2, 3] 2 ≠
      ([1, 2, 3] : List ℚ).findIdx (fun x => decide ((2 : ℚ) < x)) := by
  decide

/-! ## Window Selector (`apply_window_mode`) -/

/-- The unit-normalization step of the sliding branch: timestamps are
taken to be milliseconds (and divided by 1000) when the last one exceeds
1000, else they are already seconds. -/
def timesSeconds (times : List ℚ) : List ℚ :=
  if times.getLastD 0 > 1000 then times.map (· / 1000) else times

/-- The `for i, t in enumerate(times_seconds)` search for the first index
whose timestamp reaches the cutoff, `none` when no `break` fires. -/
def firstGe (ts : List ℚ) (cutoff : ℚ) : Option ℕ :=
  match ts with
  | [] => Option.none
  | x :: rest =>
    if cutoff ≤ x then some 0 else (firstGe rest cutoff).map (· + 1)

/-- `start_idx` of the sliding branch: initialized to 0 and left there
when no timestamp reaches the cutoff. -/
def slidingStartIdx (ts : List ℚ) (cutoff : ℚ) : ℕ :=
  (firstGe ts cutoff).getD 0

/-- `PowerControllerGUI.apply_window_mode`, a pure function of the
settings (`window_mode`, `window_max_points`, `sliding_window_time`) and
the series: Growing keeps the last `max_points` when capped, Sliding trims
to the suffix within the last `sliding_window_time` seconds. The Python
code builds new lists (`times[start_idx:]`, a fresh dict of sliced
channels) and never mutates the store, which the embedding reflects by
being a pure function. -/
def apply_window_mode (window_mode : ℤ) (window_max_points : ℤ)
    (sliding_window_time : ℚ) (times : List ℚ)
    (channels : List (String × List ℚ)) : List ℚ × List (String × List ℚ) :=
  if times = [] ∨ times.length < 2 then (times, channels)
  else if window_mode = 0 then
    if window_max_points > 0 ∧ (times.length : ℤ) > window_max_points then
      (times.drop (times.length - window_max_points.toNat),
       channels.map (fun c => (c.1, c.2.drop (c.2.length - window_max_points.toNat))))
    else (times, channels)
  else if window_mode = 1 then
    if (timesSeconds times).getLastD 0 - (timesSeconds times).headD 0 >
        sliding_window_time then
      if slidingStartIdx (timesSeconds times)
          ((timesSeconds times).getLastD 0 - sliding_window_time) > 0 then
        (times.drop (slidingStartIdx (timesSeconds times)
            ((timesSeconds times).getLastD 0 - sliding_window_time)),
         channels.map (fun c => (c.1, c.2.drop (slidingStartIdx (timesSeconds times)
            ((timesSeconds times).getLastD 0 - sliding_window_time)))))
      else (times, channels)
    else (times, channels)
  else (times, channels)

theorem firstGe_spec (ts : List ℚ) (cutoff : ℚ) :
    (∀ k, firstGe ts cutoff = some k →
      k < ts.length ∧ cutoff ≤ ts.getD k 0 ∧ ∀ j < k, ts.getD j 0 < cutoff) ∧
    (firstGe ts cutoff = Option.none → ∀ j < ts.length, ts.getD j 0 < cutoff) := by
  induction ts with
  | nil =>
    refine ⟨fun k h => by simp [firstGe] at h, fun _ j hj => by simp at hj⟩
  | cons x rest ih =>
    by_cases hx : cutoff ≤ x
    · refine ⟨fun k h => ?_, fun h => ?_⟩
      · rw [firstGe, if_pos hx] at h
        obtain rfl : (0 : ℕ) = k := Option.some.inj h
        exact ⟨by simp, by simpa using hx, fun j hj => absurd hj (by omega)⟩
      · rw [firstGe, if_pos hx] at h
        cases h
    · refine ⟨fun k h => ?_, fun h => ?_⟩
      · rw [firstGe, if_neg hx] at h
        rcases hr : firstGe rest cutoff with _ | i
        · rw [hr] at h
          cases h
        · rw [hr] at h
          obtain rfl : i + 1 = k := Option.some.inj h
          obtain ⟨hi1, hi2, hi3⟩ := ih.1 i hr
          refine ⟨by simpa using hi1, by simpa using hi2, ?_⟩
          intro j hj
          cases j with
          | zero => simpa using lt_of_not_le hx
          | succ j' => exact hi3 j' (by omega)
      · rw [firstGe, if_neg hx] at h
        rcases hr : firstGe rest cutoff with _ | i
        · intro j hj
          cases j with
          | zero => simpa using lt_of_not_le hx
          | succ j' => exact ih.2 hr j' (by simpa using hj)
        · rw [hr] at h
          cases h

theorem getLastD_eq_getD (ts : List ℚ) (hne : ts ≠ []) :
    ts.getLastD 0 = ts.getD (ts.length - 1) 0 := by
  induction ts with
  | nil => exact absurd rfl hne
  | cons x rest ih =>
    rcases rest with _ | ⟨y, rest'⟩
    · rfl
    · rw [show (x :: y :: rest').getLastD 0 = (y :: rest').getLastD 0 from rfl,
        ih (by simp)]
      rfl

theorem firstGe_isSome_of_last (ts : List ℚ) (cutoff : ℚ) (hne : ts ≠ [])
    (hlast : cutoff ≤ ts.getLastD 0) : ∃ k, firstGe ts cutoff = some k := by
  rcases h : firstGe ts cutoff with _ | k
  · exfalso
    have hall := (firstGe_spec ts cutoff).2 h
    have hlen : ts.length - 1 < ts.length := by
      rcases ts with _ | ⟨a, l⟩
      · exact absurd rfl hne
      · simp
    have := hall (ts.length - 1) hlen
    rw [← getLastD_eq_getD ts hne] at this
    exact absurd hlast (not_le.2 this)
  · exact ⟨k, rfl⟩

/-- The channel list used in the spec's sliding-window example. -/
def C3exampleChannels : List (String × List ℚ) :=
  [("GSE-1_volt", [1, 2, 3, 4, 5, 6])]

/-- C3: the sliding-window selector. With at least two timestamps and
channels aligned with them: when `latest - first ≤ duration` (in
normalized seconds) the full series is returned unchanged; otherwise the
suffix from the first index whose seconds-normalized timestamp reaches
`latest - duration` is returned, with the timestamps and every channel
sliced identically; all returned sequences have equal length; and on the
spec's example (duration 10 over seconds timestamps `[0,5,9,12,15,21]`)
the result is `[12,15,21]` with the matching channel suffix. The selector
is a pure function of the store (the Python code builds fresh slices and
a fresh dict). -/
theorem C3_sliding_window_selector (mp : ℤ) (dur : ℚ) (times : List ℚ)
    (channels : List (String × List ℚ)) (hlen : 2 ≤ times.length)
    (hch : ∀ c ∈ channels, c.2.length = times.length) (hdur : 0 ≤ dur) :
    ((timesSeconds times).getLastD 0 - (timesSeconds times).headD 0 ≤ dur →
      apply_window_mode 1 mp dur times channels = (times, channels)) ∧
    ((timesSeconds times).getLastD 0 - (timesSeconds times).headD 0 > dur →
      ((timesSeconds times).getLastD 0 - dur ≤
          (timesSeconds times).getD (slidingStartIdx (timesSeconds times)
            ((timesSeconds times).getLastD 0 - dur)) 0 ∧
        (∀ j < slidingStartIdx (timesSeconds times)
            ((timesSeconds times).getLastD 0 - dur),
          (timesSeconds times).getD j 0 < (timesSeconds times).getLastD 0 - dur)) ∧
      apply_window_mode 1 mp dur times channels =
        (times.drop (slidingStartIdx (timesSeconds times)
            ((timesSeconds times).getLastD 0 - dur)),
         channels.map (fun c => (c.1, c.2.drop (slidingStartIdx (timesSeconds times)
            ((timesSeconds times).getLastD 0 - dur)))))) ∧
    (∀ c ∈ (apply_window_mode 1 mp dur times channels).2,
      c.2.length = (apply_window_mode 1 mp dur times channels).1.length) ∧
    apply_window_mode 1 (-1) 10 [0, 5, 9, 12, 15, 21] C3exampleChannels =
      ([12, 15, 21], [("GSE-1_volt", [4, 5, 6])]) := by
  have hne : times ≠ [] := by
    intro h
    rw [h] at hlen
    simp at hlen
  have houter : ¬ (times = [] ∨ times.length < 2) := by
    rintro (h | h)
    · exact hne h
    · omega
  have htsne : timesSeconds times ≠ [] := by
    unfold timesSeconds
    split
    · simpa using hne
    · exact hne
  have hlast : (timesSeconds times).getLastD 0 - dur ≤ (timesSeconds times).getLastD 0 := by
    linarith
  have hfull : (timesSeconds times).getLastD 0 - (timesSeconds times).headD 0 ≤ dur →
      apply_window_mode 1 mp dur times channels = (times, channels) := by
    intro h
    unfold apply_window_mode
    rw [if_neg houter, if_neg (by decide), if_pos rfl, if_neg (not_lt.2 h)]
  have htrim : (timesSeconds times).getLastD 0 - (timesSeconds times).headD 0 > dur →
      (((timesSeconds times).getLastD 0 - dur ≤
          (timesSeconds times).getD (slidingStartIdx (timesSeconds times)
            ((timesSeconds times).getLastD 0 - dur)) 0 ∧
        (∀ j < slidingStartIdx (timesSeconds times)
            ((timesSeconds times).getLastD 0 - dur),
          (timesSeconds times).getD j 0 < (timesSeconds times).getLastD 0 - dur)) ∧
      apply_window_mode 1 mp dur times channels =
        (times.drop (slidingStartIdx (timesSeconds times)
            ((timesSeconds times).getLastD 0 - dur)),
         channels.map (fun c => (c.1, c.2.drop (slidingStartIdx (timesSeconds times)
            ((timesSeconds times).getLastD 0 - dur)))))) := by
    intro h
    obtain ⟨k, hk⟩ := firstGe_isSome_of_last (timesSeconds times)
      ((timesSeconds times).getLastD 0 - dur) htsne hlast
    have hkidx : slidingStartIdx (timesSeconds times)
        ((timesSeconds times).getLastD 0 - dur) = k := by
      rw [slidingStartIdx, hk]
      rfl
    obtain ⟨hk1, hk2, hk3⟩ := (firstGe_spec (timesSeconds times)
      ((timesSeconds times).getLastD 0 - dur)).1 k hk
    refine ⟨⟨by rw [hkidx]; exact hk2, by rw [hkidx]; exact fun j hj => hk3 j hj⟩, ?_⟩
    unfold apply_window_mode
    rw [if_neg houter, if_neg (by decide), if_pos rfl, if_pos h]
    by_cases hk0 : 0 < slidingStartIdx (timesSeconds times)
        ((timesSeconds times).getLastD 0 - dur)
    · rw [if_pos hk0]
    · rw [if_neg hk0]
      have hzero : slidingStartIdx (timesSeconds times)
          ((timesSeconds times).getLastD 0 - dur) = 0 := by omega
      rw [hzero]
      simp
  have hex : apply_window_mode 1 (-1) 10 [0, 5, 9, 12, 15, 21] C3exampleChannels =
      ([12, 15, 21], [("GSE-1_volt", [4, 5, 6])]) := by
    have hts : timesSeconds [0, 5, 9, 12, 15, 21] = [0, 5, 9, 12, 15, 21] := by
      rw [timesSeconds, if_neg]
      rw [show ([0, 5, 9, 12, 15, 21] : List ℚ).getLastD 0 = 21 from rfl]
      norm_num
    have hidx : slidingStartIdx [0, 5, 9, 12, 15, 21] (21 - 10) = 3 := by
      norm_num [slidingStartIdx, firstGe]
    unfold apply_window_mode
    rw [if_neg (by simp), if_neg (by decide), if_pos rfl, hts]
    rw [show ([0, 5, 9, 12, 15, 21] : List ℚ).getLastD 0 = 21 from rfl,
      show ([0, 5, 9, 12, 15, 21] : List ℚ).headD 0 = 0 from rfl]
    rw [if_pos (by norm_num), if_pos (by rw [hidx]; norm_num), hidx]
    rfl
  refine ⟨hfull, htrim, ?_, hex⟩
  by_cases hcond : (timesSeconds times).getLastD 0 - (timesSeconds times).headD 0 > dur
  · obtain ⟨_, heq⟩ := htrim hcond
    rw [heq]
    intro c hc
    obtain ⟨d, hd, hdc⟩ := List.mem_map.1 hc
    rw [← hdc]
    simp only [List.length_drop]
    rw [hch d hd]
  · rw [hfull (not_lt.1 hcond)]
    exact hch

/-- Witness for C3 at the spec's sliding-window example. -/
theorem C3_witness :
    (2 ≤ ([0, 5, 9, 12, 15, 21] : List ℚ).length ∧
      (∀ c ∈ C3exampleChannels, c.2.length = ([0, 5, 9, 12, 15, 21] : List ℚ).length) ∧
      (0 : ℚ) ≤ 10) ∧
    apply_window_mode 1 (-1) 10 [0, 5, 9, 12, 15, 21] C3exampleChannels =
      ([12, 15, 21], [("GSE-1_volt", [4, 5, 6])]) :=
  ⟨⟨by decide, by decide, by norm_num⟩,
    (C3_sliding_window_selector (-1) 10 [0, 5, 9, 12, 15, 21] C3exampleChannels
      (by decide) (by decide) (by norm_num)).2.2.2⟩

/-! ## Frame Reader (the line-splitting loops of `_tcp_listener` and
`_serial_listener`) -/

/-- Split a chunk of received characters into the complete lines before
each newline, plus the trailing partial line: the effect of the
`while '\n' in buffer: line, buffer = buffer.split('\n', 1)` loop on a
buffer whose old content held no newline. -/
def splitComplete (cs : List Char) : List (List Char) × List Char :=
  match cs with
  | [] => ([], [])
  | c :: rest =>
    match splitComplete rest with
    | (ls, tl) =>
      if c = '\n' then ([] :: ls, tl)
      else
        match ls with
        | [] => ([], c :: tl)
        | l :: ls' => ((c :: l) :: ls', tl)

/-- The frames produced from a batch of complete lines: each line is
`strip`ped and empty results are skipped (`if line.strip():`). -/
def framesOfLines (ls : List (List Char)) : List (List Char) :=
  (ls.map stripChars).filter (fun l => l ≠ [])

/-- One listener iteration: append the chunk to the accumulator, split
off every complete line, emit its frames, keep the partial tail. -/
def listenerStep (st : List Char × List (List Char)) (chunk : List Char) :
    List Char × List (List Char) :=
  match splitComplete (st.1 ++ chunk) with
  | (ls, tl) => (tl, st.2 ++ framesOfLines ls)

/-- The frames emitted by the listener loop over a whole chunk sequence,
starting from an empty accumulator (`buffer = ""`). -/
def listenerFrames (chunks : List (List Char)) : List (List Char) :=
  (chunks.foldl listenerStep ([], [])).2

theorem splitComplete_tail_no_newline (cs : List Char) :
    '\n' ∉ (splitComplete cs).2 := by
  induction cs with
  | nil => simp [splitComplete]
  | cons c rest ih =>
    simp only [splitComplete]
    rcases h : splitComplete rest with ⟨ls, tl⟩
    rw [h] at ih
    by_cases hc : c = '\n'
    · simp only [if_pos hc]
      exact ih
    · simp only [if_neg hc]
      rcases ls with _ | ⟨l, ls'⟩
      · simp only []
        intro hmem
        rcases List.mem_cons.1 hmem with h' | h'
        · exact hc h'.symm
        · exact ih h'
      · exact ih

theorem splitComplete_no_newline (cs : List Char) (h : '\n' ∉ cs) :
    splitComplete cs = ([], cs) := by
  induction cs with
  | nil => rfl
  | cons c rest ih =>
    have hc : ¬ c = '\n' := fun hh => h (hh ▸ List.mem_cons_self c rest)
    have hrest : '\n' ∉ rest := fun hh => h (List.mem_cons_of_mem c hh)
    simp only [splitComplete, ih hrest, if_neg hc]

/-- Grafting a newline-free prefix onto the first line (or the partial
tail) of a later split. -/
def graft (a : List Char) (s : List (List Char) × List Char) :
    List (List Char) × List Char :=
  match s with
  | ([], tl) => ([], a ++ tl)
  | (l :: ls, tl) => ((a ++ l) :: ls, tl)

theorem splitComplete_append (a b : List Char) (ha : '\n' ∉ a) :
    splitComplete (a ++ b) = graft a (splitComplete b) := by
  induction a with
  | nil =>
    rcases h : splitComplete b with ⟨ls, tl⟩
    rcases ls with _ | ⟨l, ls'⟩ <;> simp [graft, h]
  | cons c a' ih =>
    have hc : ¬ c = '\n' := fun hh => ha (hh ▸ List.mem_cons_self c a')
    have ha' : '\n' ∉ a' := fun hh => ha (List.mem_cons_of_mem c hh)
    show splitComplete (c :: (a' ++ b)) = _
    simp only [splitComplete, ih ha', if_neg hc]
    rcases h : splitComplete b with ⟨ls, tl⟩
    rcases ls with _ | ⟨l, ls'⟩
    · simp [graft]
    · simp [graft]

theorem graft_nil (s : List (List Char) × List Char) : graft [] s = s := by
  rcases s with ⟨ls, tl⟩
  rcases ls with _ | ⟨l, ls'⟩ <;> simp [graft]

theorem graft_graft (a b : List Char) (s : List (List Char) × List Char) :
    graft a (graft b s) = graft (a ++ b) s := by
  rcases s with ⟨ls, tl⟩
  rcases ls with _ | ⟨l, ls'⟩ <;> simp [graft]

theorem framesOfLines_append (xs ys : List (List Char)) :
    framesOfLines (xs ++ ys) = framesOfLines xs ++ framesOfLines ys := by
  simp [framesOfLines]

theorem splitComplete_append_full (x y : List Char) :
    splitComplete (x ++ y) =
      ((splitComplete x).1 ++ (graft (splitComplete x).2 (splitComplete y)).1,
       (graft (splitComplete x).2 (splitComplete y)).2) := by
  induction x with
  | nil =>
    rw [List.nil_append]
    rcases h : splitComplete y with ⟨ls, tl⟩
    show (ls, tl) = _
    rw [show splitComplete ([] : List Char) = ([], []) from rfl]
    rw [graft_nil]
    rfl
  | cons c x' ih =>
    rcases hX : splitComplete x' with ⟨Xl, Xt⟩
    rcases hS : splitComplete y with ⟨Sl, St⟩
    rw [hX, hS] at ih
    show splitComplete (c :: (x' ++ y)) = _
    by_cases hc : c = '\n'
    · rcases Sl with _ | ⟨s₀, sr⟩ <;> rcases Xl with _ | ⟨l₀, lr⟩ <;>
        simp_all [splitComplete, graft, List.cons_append]
    · rcases Sl with _ | ⟨s₀, sr⟩ <;> rcases Xl with _ | ⟨l₀, lr⟩ <;>
        simp_all [splitComplete, graft, List.cons_append]

theorem listener_foldl (chunks : List (List Char)) :
    ∀ (buf : List Char) (acc : List (List Char)), '\n' ∉ buf →
      chunks.foldl listenerStep (buf, acc) =
        ((graft buf (splitComplete chunks.flatten)).2,
         acc ++ framesOfLines (graft buf (splitComplete chunks.flatten)).1) := by
  induction chunks with
  | nil =>
    intro buf acc _
    show (buf, acc) = _
    rw [show (([] : List (List Char)).flatten) = [] from rfl,
      show splitComplete [] = ([], []) from rfl,
      show graft buf ([], []) = ([], buf ++ []) from rfl]
    simp [framesOfLines]
  | cons ch rest ih =>
    intro buf acc hbuf
    show rest.foldl listenerStep (listenerStep (buf, acc) ch) = _
    rcases hC : splitComplete ch with ⟨Cl, Ct⟩
    have hstep : splitComplete (buf ++ ch) = graft buf (Cl, Ct) := by
      rw [splitComplete_append buf ch hbuf, hC]
    rcases hG : graft buf (Cl, Ct) with ⟨Gl, Gt⟩
    rw [hG] at hstep
    have htl : '\n' ∉ Gt := by
      have h2 := splitComplete_tail_no_newline (buf ++ ch)
      rw [hstep] at h2
      exact h2
    have hls : listenerStep (buf, acc) ch = (Gt, acc ++ framesOfLines Gl) := by
      unfold listenerStep
      rw [show ((buf, acc) : List Char × List (List Char)).1 = buf from rfl, hstep]
    rw [hls, ih Gt (acc ++ framesOfLines Gl) htl]
    rw [show ((ch :: rest).flatten : List Char) = ch ++ rest.flatten from rfl,
      splitComplete_append_full ch rest.flatten, hC]
    rcases hS : splitComplete rest.flatten with ⟨Sl, St⟩
    rcases Cl with _ | ⟨l₀, lr⟩
    · have hGl : Gl = [] ∧ Gt = buf ++ Ct := by
        constructor
        · rcases hh : graft buf (([] : List (List Char)), Ct) with ⟨a, b⟩
          rw [hh] at hG
          cases hG
          rcases hh2 : ([] : List (List Char)) with _ | _
          · injection hh with h1 h2
            rw [← h1]
          · simp at hh2
        · rcases hh : graft buf (([] : List (List Char)), Ct) with ⟨a, b⟩
          rw [hh] at hG
          cases hG
          injection hh with h1 h2
          rw [← h2]
      rcases hGl with ⟨rfl, rfl⟩
      rw [← graft_graft buf Ct (Sl, St)]
      rcases hY : graft Ct (Sl, St) with ⟨Yl, Yt⟩
      simp [framesOfLines, graft_graft]
    · have hGl : Gl = (buf ++ l₀) :: lr ∧ Gt = Ct := by
        rw [show graft buf ((l₀ :: lr : List (List Char)), Ct) =
          ((buf ++ l₀) :: lr, Ct) from rfl] at hG
        injection hG with h1 h2
        exact ⟨h1.symm, h2.symm⟩
      rcases hGl with ⟨rfl, rfl⟩
      dsimp only
      rcases hY : graft Gt (Sl, St) with ⟨Yl, Yt⟩
      dsimp only
      show (Yt, acc ++ framesOfLines ((buf ++ l₀) :: lr) ++ framesOfLines Yl) =
        (Yt, acc ++ framesOfLines ((buf ++ l₀) :: (lr ++ Yl)))
      rw [show ((buf ++ l₀) :: (lr ++ Yl) : List (List Char)) =
        ((buf ++ l₀) :: lr) ++ Yl from rfl, framesOfLines_append, List.append_assoc]

/-- C7 (amended): the listener's frame reader is chunk-boundary
independent: the frames emitted over any chunk sequence are exactly the
complete lines of the concatenated stream, each stripped of surrounding
whitespace (not only the terminator), with lines that strip to empty
yielding no frame — so frames come in arrival order, partial lines carry
across chunks, and no data is dropped. On the spec's example, feeding
`"a\nb\nc"` then `"d\n"` yields exactly `a`, `b`, `cd`, and an empty line
yields no frame. -/
theorem C7_frame_reader (chunks : List (List Char)) :
    listenerFrames chunks = framesOfLines (splitComplete chunks.flatten).1 ∧
    listenerFrames ["a\nb\nc".toList, "d\n".toList] =
      ["a".toList, "b".toList, "cd".toList] ∧
    listenerFrames ["\n".toList] = [] := by
  refine ⟨?_, by decide, by decide⟩
  rw [listenerFrames, listener_foldl chunks [] [] (by simp)]
  rcases h : splitComplete chunks.flatten with ⟨ls, tl⟩
  rw [graft_nil]
  simp

/-- Counterexample to C7 as stated: the frame of the complete line
`" a "` is `"a"` — the listeners run `line.strip()`, which removes
surrounding whitespace, not only the line terminator. -/
theorem C7_counterexample :
    listenerFrames [" a \n".toList] = ["a".toList] ∧
    " a ".toList ≠ "a".toList ∧
    listenerFrames [" a \n".toList] ≠ [" a ".toList] := by
  decide

/-! ## Listener stop (`TeensyController.disconnect`) -/

/-- The `TeensyController` state slice touched by `disconnect`; socket
and serial handles are modelled by presence flags (`True` = open handle
assigned, `False` = `None`). -/
structure TeensyController where
  stop_threads : Bool
  connected : Bool
  streaming : Bool
  tcp_socket : Bool
  udp_socket : Bool
  serial_port : Bool
deriving DecidableEq

/-- `TeensyController.disconnect`: set the stop flag, clear the connected
and streaming flags, close and clear every handle (close errors are
swallowed), then emit `connection_changed.emit(False)` — unconditionally,
with no guard on the current state. Returns the new state and the list of
emitted connection-changed payloads. -/
def TeensyController.disconnect (c : TeensyController) :
    TeensyController × List Bool :=
  ({ c with stop_threads := true, connected := false, streaming := false,
            tcp_socket := false, udp_socket := false, serial_port := false },
   [false])

/-- Two consecutive stop requests, collecting all emitted events. -/
def disconnectTwice (c : TeensyController) : TeensyController × List Bool :=
  (c.disconnect.1.disconnect.1, c.disconnect.2 ++ c.disconnect.1.disconnect.2)

/-- C8 (amended): every `disconnect` call emits exactly one
connection-changed(false) event; a second call leaves the state unchanged
(idempotent on state) but emits another event, so two stop requests emit
two events in total — not one. (The listener thread emits one more
connection-changed(false) when its loop exits, on top of these.) -/
theorem C8_disconnect_emits_per_call (c : TeensyController) :
    c.disconnect.2 = [false] ∧
    (disconnectTwice c).2 = [false, false] ∧
    (disconnectTwice c).1 = c.disconnect.1 :=
  ⟨rfl, rfl, rfl⟩

/-- A controller in the Running state (connected over a stream socket). -/
def runningController : TeensyController :=
  ⟨false, true, true, true, false, false⟩

/-- Counterexample to C8 as stated: calling stop twice on a running
controller emits two connection-state-changed(false) events, not exactly
one — the second stop request is not a no-op for event emission. -/
theorem C8_counterexample :
    (disconnectTwice runningController).2 = [false, false] ∧
    (disconnectTwice runningController).2.length ≠ 1 := by
  decide

/-! ## Ingestion Buffer (`data_buffer = deque(maxlen=50)`) -/

/-- `deque(maxlen=n).append`: when the deque is full the oldest (leftmost)
element is discarded as the new one is appended on the right. -/
def dequeAppend (maxlen : ℕ) (buf : List α) (x : α) : List α :=
  if maxlen < buf.length + 1 then (buf ++ [x]).drop (buf.length + 1 - maxlen)
  else buf ++ [x]

/-- The slice of `PowerControllerGUI` state around the Ingestion Buffer:
`data_buffer` and the neighboring fields initialized beside it in
`__init__`. No field counts dropped records. -/
structure GuiBufferState where
  live : LiveState
  data_buffer : List (DataPoint × ℚ)
  plot_initialized : Bool
  last_plot_update : ℚ
deriving DecidableEq

/-- The buffering step of `on_live_data_received`:
`self.data_buffer.append((data_point, time_sec))` — the only state this
statement writes is `data_buffer` itself. -/
def on_live_data_buffer_append (s : GuiBufferState) (r : DataPoint × ℚ) :
    GuiBufferState :=
  { s with data_buffer := dequeAppend 50 s.data_buffer r }

/-- C9 (amended): the Ingestion Buffer is a bounded FIFO of capacity 50:
a push keeps the length within 50; a push onto a full buffer drops the
oldest queued record and retains the newly pushed one (drop-oldest, never
drop-newest); a push within capacity is a plain FIFO append. (No count of
dropped records is maintained or exposed — see the counterexample.) -/
theorem C9_bounded_fifo_drop_oldest (s : GuiBufferState) (r : DataPoint × ℚ) :
    (s.data_buffer.length ≤ 50 →
      (on_live_data_buffer_append s r).data_buffer.length ≤ 50) ∧
    (s.data_buffer.length = 50 →
      (on_live_data_buffer_append s r).data_buffer = s.data_buffer.tail ++ [r]) ∧
    (s.data_buffer.length < 50 →
      (on_live_data_buffer_append s r).data_buffer = s.data_buffer ++ [r]) := by
  refine ⟨?_, ?_, ?_⟩
  · intro hle
    show (dequeAppend 50 s.data_buffer r).length ≤ 50
    unfold dequeAppend
    split
    · next hgt =>
      rw [List.length_drop, List.length_append]
      simp only [List.length_singleton]
      omega
    · next hgt =>
      rw [List.length_append]
      simp only [List.length_singleton]
      omega
  · intro heq
    show dequeAppend 50 s.data_buffer r = s.data_buffer.tail ++ [r]
    unfold dequeAppend
    rw [if_pos (by omega), heq]
    rw [show 50 + 1 - 50 = 1 from rfl]
    rw [List.drop_append_of_le_length (by omega), List.drop_one]
  · intro hlt
    show dequeAppend 50 s.data_buffer r = s.data_buffer ++ [r]
    unfold dequeAppend
    rw [if_neg (by omega)]

/-- A state whose Ingestion Buffer is full (50 queued records). -/
def C9fullState : GuiBufferState :=
  ⟨freshLive, List.replicate 50 ([("time", 0)], 0), false, 0⟩

/-- The record pushed onto the full buffer. -/
def C9newRecord : DataPoint × ℚ := ([("GSE-1_volt", 1)], 1)

/-- Witness for C9 at a concrete full buffer. -/
theorem C9_witness :
    C9fullState.data_buffer.length = 50 ∧
    (on_live_data_buffer_append C9fullState C9newRecord).data_buffer =
      C9fullState.data_buffer.tail ++ [C9newRecord] :=
  ⟨by decide, (C9_bounded_fifo_drop_oldest C9fullState C9newRecord).2.1 (by decide)⟩

/-- Counterexample to C9 as stated: a push onto the full buffer drops the
oldest record (the length stays 50 while the newest record enters), yet
every state component other than `data_buffer` is unchanged — no counter
records the drop, so no drop count is exposed as an observability
signal. -/
theorem C9_counterexample :
    (on_live_data_buffer_append C9fullState C9newRecord).data_buffer.length =
      C9fullState.data_buffer.length ∧
    (on_live_data_buffer_append C9fullState C9newRecord).data_buffer ≠
      C9fullState.data_buffer ∧
    (on_live_data_buffer_append C9fullState C9newRecord).live = C9fullState.live ∧
    (on_live_data_buffer_append C9fullState C9newRecord).plot_initialized =
      C9fullState.plot_initialized ∧
    (on_live_data_buffer_append C9fullState C9newRecord).last_plot_update =
      C9fullState.last_plot_update := by
  refine ⟨by decide, by decide, rfl, rfl, rfl⟩

/-! ## Corruption repair (`fix_corrupted_data`)

File I/O is embedded as an explicit file-system map from paths to parsed
contents (`shutil.copy2` duplicates the file's bytes, so the copy is
byte-identical to the original exactly when the stored content is
identical), with the two fallible I/O steps — the backup copy and the
rewrite — given explicit success flags; the Python `try`/`except` wraps
the whole body, so a backup failure aborts before anything is written. -/

/-- A file system: path to parsed content. -/
def FileSys := String → Option PyVal

/-- Write (or overwrite) one path. -/
def fsUpdate (fs : FileSys) (path : String) (v : Option PyVal) : FileSys :=
  fun q => if q = path then v else fs q

/-- Python dict assignment `d[k] = v`: replace in place, or append the
new key at the end. -/
def dictSet (kvs : List (String × PyVal)) (k : String) (v : PyVal) :
    List (String × PyVal) :=
  match kvs with
  | [] => [(k, v)]
  | (g, w) :: rest => if g = k then (g, v) :: rest else (g, w) :: dictSet rest k v

/-- `self.data_json['data']` as the repair path reads it (a list after a
successful load). -/
def getDataList (j : PyVal) : List PyVal :=
  match j with
  | .dict kvs =>
    match dictLookup kvs "data" with
    | some (.list pts) => pts
    | _ => []
  | _ => []

/-- In-place replacement of the `data` list (the Python `del` mutates the
list object that `data_json['data']` references). -/
def setDataList (j : PyVal) (pts : List PyVal) : PyVal :=
  match j with
  | .dict kvs => .dict (dictSet kvs "data" (.list pts))
  | _ => j

/-- `'duration_sec' in self.data_json`. -/
def hasDurationKey (j : PyVal) : Bool :=
  match j with
  | .dict kvs => (dictLookup kvs "duration_sec").isSome
  | _ => false

/-- The `for idx in reversed(corrupted_indices): if 0 <= idx <
len(data_points): del data_points[idx]` loop. -/
def deleteIndicesDesc (pts : List PyVal) (idxs : List ℕ) : List PyVal :=
  idxs.reverse.foldl (fun l i => if i < l.length then l.eraseIdx i else l) pts

/-- Spec-side: the points whose (absolute) position, counted from `k`, is
not among the flagged indices — every unflagged point, in its original
relative order. -/
def keepIdxFrom (k : ℕ) (idxs : List ℕ) : List PyVal → List PyVal
  | [] => []
  | p :: l => if k ∈ idxs then keepIdxFrom (k + 1) idxs l
              else p :: keepIdxFrom (k + 1) idxs l

/-- `point.get('time', 0)` as consumed by the duration subtraction (the
repaired points carry finite numeric times; other shapes collapse to the
`.get` default). -/
def timeOfPoint (p : PyVal) : ℚ :=
  match p with
  | .dict kvs =>
    match dictLookup kvs "time" with
    | some (.num (.fin q)) => q
    | _ => 0
  | _ => 0

/-- Python `int(q)`: truncation toward zero. -/
def pyInt (q : ℚ) : ℤ :=
  if q < 0 then ⌈q⌉ else ⌊q⌋

/-- The recomputed `duration_sec` value:
`int((end_time - start_time) / 1000)` over the cleaned points. -/
def newDuration (pts : List PyVal) : ℤ :=
  pyInt ((timeOfPoint (pts.getLastD .pynone) - timeOfPoint (pts.headD .pynone)) / 1000)

/-- The in-memory `data_json` after the destructive repair steps: flagged
indices deleted descending, `duration_sec` recomputed from the new first
and last timestamps when the key exists and more than one point
remains. -/
def repairedJson (j : PyVal) (idxs : List ℕ) : PyVal :=
  if hasDurationKey j ∧ 1 < (deleteIndicesDesc (getDataList j) idxs).length then
    match setDataList j (deleteIndicesDesc (getDataList j) idxs) with
    | .dict kvs => .dict (dictSet kvs "duration_sec"
        (.num (.fin (newDuration (deleteIndicesDesc (getDataList j) idxs)))))
    | j1 => j1
  else setDataList j (deleteIndicesDesc (getDataList j) idxs)

/-- The outcome of `fix_corrupted_data`: the file system, the in-memory
JSON, and whether the repair completed. -/
structure FixResult where
  fs : FileSys
  data_json : PyVal
  ok : Bool

/-- `PowerControllerGUI.fix_corrupted_data`: copy the original to
`<path>.backup`, delete the flagged indices in descending order,
recompute `duration_sec`, and overwrite the original path with the
cleaned record set. A backup failure raises before anything is written;
a write failure happens after the backup and the in-memory mutation. -/
def fix_corrupted_data (fs : FileSys) (file_path : String) (data_json : PyVal)
    (corrupted_indices : List ℕ) (backup_ok write_ok : Bool) : FixResult :=
  if backup_ok then
    if write_ok then
      ⟨fsUpdate (fsUpdate fs (file_path ++ ".backup") (fs file_path)) file_path
          (some (repairedJson data_json corrupted_indices)),
        repairedJson data_json corrupted_indices, true⟩
    else
      ⟨fsUpdate fs (file_path ++ ".backup") (fs file_path),
        repairedJson data_json corrupted_indices, false⟩
  else ⟨fs, data_json, false⟩

theorem keepIdxFrom_of_forall_lt :
    ∀ (l : List PyVal) (k : ℕ) (idxs : List ℕ), (∀ j ∈ idxs, j < k) →
      keepIdxFrom k idxs l = l := by
  intro l
  induction l with
  | nil => intro k idxs _; rfl
  | cons p l ih =>
    intro k idxs h
    have hk : k ∉ idxs := fun hmem => absurd (h k hmem) (lt_irrefl k)
    simp only [keepIdxFrom, if_neg hk]
    rw [ih (k + 1) idxs (fun j hj => Nat.lt_succ_of_lt (h j hj))]

theorem keepIdxFrom_cons_lt :
    ∀ (l : List PyVal) (k m : ℕ) (idxs : List ℕ), m < k →
      keepIdxFrom k (m :: idxs) l = keepIdxFrom k idxs l := by
  intro l
  induction l with
  | nil => intro k m idxs _; rfl
  | cons p l ih =>
    intro k m idxs hm
    have hne : k ∈ m :: idxs ↔ k ∈ idxs := by
      simp only [List.mem_cons]
      constructor
      · rintro (rfl | h)
        · omega
        · exact h
      · exact Or.inr
    simp only [keepIdxFrom]
    by_cases hk : k ∈ idxs
    · rw [if_pos (hne.2 hk), if_pos hk]
      exact ih (k + 1) m idxs (by omega)
    · rw [if_neg (fun h => hk (hne.1 h)), if_neg hk]
      rw [ih (k + 1) m idxs (by omega)]

theorem keepIdxFrom_eraseIdx :
    ∀ (l : List PyVal) (i k : ℕ) (idxs : List ℕ), i < l.length →
      (∀ j ∈ idxs, j < k + i) →
      keepIdxFrom k idxs (l.eraseIdx i) = keepIdxFrom k ((k + i) :: idxs) l := by
  intro l
  induction l with
  | nil =>
    intro i k idxs hi _
    simp at hi
  | cons p l ih =>
    intro i k idxs hi hbnd
    cases i with
    | zero =>
      show keepIdxFrom k idxs l = keepIdxFrom k ((k + 0) :: idxs) (p :: l)
      have hin : k ∈ (k + 0) :: idxs := by simp
      simp only [keepIdxFrom, if_pos hin]
      rw [keepIdxFrom_cons_lt l (k + 1) (k + 0) idxs (by omega)]
      rw [keepIdxFrom_of_forall_lt l k idxs (fun j hj => by have := hbnd j hj; omega)]
      rw [keepIdxFrom_of_forall_lt l (k + 1) idxs (fun j hj => by have := hbnd j hj; omega)]
    | succ i' =>
      show keepIdxFrom k idxs (p :: l.eraseIdx i') = _
      have hmem : k ∈ (k + (i' + 1)) :: idxs ↔ k ∈ idxs := by
        simp only [List.mem_cons]
        constructor
        · rintro (h | h)
          · omega
          · exact h
        · exact Or.inr
      simp only [keepIdxFrom]
      have hrec := ih i' (k + 1) idxs (by simpa using hi)
        (fun j hj => by have := hbnd j hj; omega)
      have harith : (k + 1) + i' = k + (i' + 1) := by omega
      rw [harith] at hrec
      by_cases hk : k ∈ idxs
      · rw [if_pos (hmem.2 hk), if_pos hk, hrec]
      · rw [if_neg (fun h => hk (hmem.1 h)), if_neg hk, hrec]

theorem foldl_erase_desc :
    ∀ (idxs : List ℕ) (pts : List PyVal), idxs.Pairwise (· > ·) →
      (∀ i ∈ idxs, i < pts.length) →
      idxs.foldl (fun l i => if i < l.length then l.eraseIdx i else l) pts =
        keepIdxFrom 0 idxs pts := by
  intro idxs
  induction idxs with
  | nil =>
    intro pts _ _
    rw [keepIdxFrom_of_forall_lt pts 0 [] (by simp)]
    rfl
  | cons i is ih =>
    intro pts hpw hbnd
    have hi : i < pts.length := hbnd i (List.mem_cons_self i is)
    show is.foldl _ (if i < pts.length then pts.eraseIdx i else pts) = _
    rw [if_pos hi]
    have hlt : ∀ j ∈ is, j < i := fun j hj => (List.pairwise_cons.1 hpw).1 j hj
    rw [ih (pts.eraseIdx i) (List.pairwise_cons.1 hpw).2
      (fun j hj => by
        rw [List.length_eraseIdx_of_lt hi]
        have := hlt j hj
        omega)]
    have := keepIdxFrom_eraseIdx pts i 0 is hi (fun j hj => by simpa using hlt j hj)
    simpa using this

theorem keepIdxFrom_congr :
    ∀ (l : List PyVal) (k : ℕ) (idxs idxs' : List ℕ),
      (∀ j, j ∈ idxs ↔ j ∈ idxs') →
      keepIdxFrom k idxs l = keepIdxFrom k idxs' l := by
  intro l
  induction l with
  | nil => intro k idxs idxs' _; rfl
  | cons p l ih =>
    intro k idxs idxs' h
    simp only [keepIdxFrom]
    by_cases hk : k ∈ idxs
    · rw [if_pos hk, if_pos ((h k).1 hk), ih (k + 1) idxs idxs' h]
    · rw [if_neg hk, if_neg (fun hh => hk ((h k).2 hh)), ih (k + 1) idxs idxs' h]

theorem deleteIndicesDesc_eq_keep (pts : List PyVal) (idxs : List ℕ)
    (hasc : idxs.Pairwise (· < ·)) (hbnd : ∀ i ∈ idxs, i < pts.length) :
    deleteIndicesDesc pts idxs = keepIdxFrom 0 idxs pts := by
  rw [deleteIndicesDesc]
  rw [foldl_erase_desc idxs.reverse pts
    (by rw [List.pairwise_reverse]; exact hasc)
    (fun i hi => hbnd i (List.mem_reverse.1 hi))]
  exact keepIdxFrom_congr pts 0 idxs.reverse idxs (fun j => List.mem_reverse)

theorem dictLookup_dictSet_self (kvs : List (String × PyVal)) (k : String) (v : PyVal) :
    dictLookup (dictSet kvs k v) k = some v := by
  induction kvs with
  | nil => simp [dictSet, dictLookup]
  | cons c rest ih =>
    obtain ⟨g, w⟩ := c
    by_cases hg : g = k
    · simp [dictSet, dictLookup, hg]
    · simp only [dictSet, if_neg hg, dictLookup, if_neg hg]
      exact ih

theorem dictLookup_dictSet_ne (kvs : List (String × PyVal)) (k k' : String)
    (v : PyVal) (h : k' ≠ k) :
    dictLookup (dictSet kvs k v) k' = dictLookup kvs k' := by
  induction kvs with
  | nil =>
    simp only [dictSet, dictLookup]
    rw [if_neg (fun hh : k = k' => h hh.symm)]
  | cons c rest ih =>
    obtain ⟨g, w⟩ := c
    by_cases hg : g = k
    · subst hg
      simp only [dictSet, if_pos rfl, dictLookup, if_neg (fun hh : g = k' => h hh.symm)]
    · simp only [dictSet, if_neg hg, dictLookup]
      by_cases hgk : g = k'
      · rw [if_pos hgk, if_pos hgk]
      · rw [if_neg hgk, if_neg hgk]
        exact ih

/-- Key lookup on a JSON value. -/
def jsonLookup (j : PyVal) (k : String) : Option PyVal :=
  match j with
  | .dict kvs => dictLookup kvs k
  | _ => Option.none

theorem path_ne_backup (p : String) : (p ++ ".backup") ≠ p := by
  intro h
  have hlen := congrArg String.length h
  rw [String.length_append] at hlen
  rw [show (".backup" : String).length = 7 from rfl] at hlen
  omega

theorem repairedJson_data (kvs : List (String × PyVal)) (idxs : List ℕ) :
    getDataList (repairedJson (.dict kvs) idxs) =
      deleteIndicesDesc (getDataList (.dict kvs)) idxs := by
  rw [repairedJson]
  split
  · show getDataList (.dict (dictSet (dictSet kvs "data"
      (.list (deleteIndicesDesc (getDataList (.dict kvs)) idxs))) "duration_sec" _)) = _
    show (match dictLookup (dictSet (dictSet kvs "data"
        (.list (deleteIndicesDesc (getDataList (.dict kvs)) idxs))) "duration_sec" _)
        "data" with
      | some (.list pts) => pts
      | _ => ([] : List PyVal)) = _
    rw [dictLookup_dictSet_ne _ _ _ _ (by decide), dictLookup_dictSet_self]
  · show getDataList (.dict (dictSet kvs "data"
      (.list (deleteIndicesDesc (getDataList (.dict kvs)) idxs)))) = _
    show (match dictLookup (dictSet kvs "data"
        (.list (deleteIndicesDesc (getDataList (.dict kvs)) idxs))) "data" with
      | some (.list pts) => pts
      | _ => ([] : List PyVal)) = _
    rw [dictLookup_dictSet_self]

theorem repairedJson_duration (kvs : List (String × PyVal)) (idxs : List ℕ)
    (hkey : hasDurationKey (.dict kvs) = true)
    (hlen : 1 < (deleteIndicesDesc (getDataList (.dict kvs)) idxs).length) :
    jsonLookup (repairedJson (.dict kvs) idxs) "duration_sec" =
      some (.num (.fin
        (newDuration (deleteIndicesDesc (getDataList (.dict kvs)) idxs)))) := by
  rw [repairedJson, if_pos ⟨hkey, hlen⟩]
  exact dictLookup_dictSet_self _ _ _

/-- C6: repair. A failed backup aborts with the file system and the
in-memory records untouched. A successful backup stores at
`<path>.backup` exactly the pre-repair content of the original path. The
destructive step deletes exactly the flagged indices — iterating them in
descending order — leaving every unflagged point intact in its original
relative order (`keepIdxFrom 0 idxs`); `duration_sec` is recomputed as
`int((end - start)/1000)` over the new first and last timestamps when the
key exists and more than one point remains; and a completed repair
overwrites the original path with the cleaned record set (a failed
rewrite leaves the original path's content unchanged, only the backup
written). -/
theorem C6_repair_behavior (fs : FileSys) (file_path : String)
    (kvs : List (String × PyVal)) (idxs : List ℕ) (wok : Bool)
    (hasc : idxs.Pairwise (· < ·))
    (hbnd : ∀ i ∈ idxs, i < (getDataList (.dict kvs)).length) :
    (fix_corrupted_data fs file_path (.dict kvs) idxs false wok).fs = fs ∧
    (fix_corrupted_data fs file_path (.dict kvs) idxs false wok).data_json = .dict kvs ∧
    (fix_corrupted_data fs file_path (.dict kvs) idxs true wok).fs
      (file_path ++ ".backup") = fs file_path ∧
    getDataList (repairedJson (.dict kvs) idxs) =
      keepIdxFrom 0 idxs (getDataList (.dict kvs)) ∧
    (hasDurationKey (.dict kvs) = true →
      1 < (deleteIndicesDesc (getDataList (.dict kvs)) idxs).length →
      jsonLookup (repairedJson (.dict kvs) idxs) "duration_sec" =
        some (.num (.fin
          (newDuration (deleteIndicesDesc (getDataList (.dict kvs)) idxs))))) ∧
    (fix_corrupted_data fs file_path (.dict kvs) idxs true true).fs file_path =
      some (repairedJson (.dict kvs) idxs) ∧
    (fix_corrupted_data fs file_path (.dict kvs) idxs true false).fs file_path =
      fs file_path := by
  refine ⟨rfl, rfl, ?_, ?_, ?_, ?_, ?_⟩
  · cases wok
    · show fsUpdate fs (file_path ++ ".backup") (fs file_path) (file_path ++ ".backup") = _
      rw [fsUpdate, if_pos rfl]
    · show fsUpdate (fsUpdate fs (file_path ++ ".backup") (fs file_path)) file_path
        (some (repairedJson (.dict kvs) idxs)) (file_path ++ ".backup") = _
      rw [fsUpdate, if_neg (path_ne_backup file_path)]
      show fsUpdate fs (file_path ++ ".backup") (fs file_path) (file_path ++ ".backup") = _
      rw [fsUpdate, if_pos rfl]
  · rw [repairedJson_data]
    exact deleteIndicesDesc_eq_keep _ idxs hasc hbnd
  · exact repairedJson_duration kvs idxs
  · show fsUpdate (fsUpdate fs (file_path ++ ".backup") (fs file_path)) file_path
      (some (repairedJson (.dict kvs) idxs)) file_path = _
    rw [fsUpdate, if_pos rfl]
  · show fsUpdate fs (file_path ++ ".backup") (fs file_path) file_path = _
    rw [fsUpdate, if_neg (fun h => path_ne_backup file_path h.symm)]

/-- The file system holding the spec's corrupted example file. -/
def C6fs : FileSys :=
  fun p => if p = "session.json" then some exampleFile else Option.none

/-- Witness for C6 at the spec's example: repairing the example file with
flagged indices `[1, 2, 3]` backs up the original content and keeps
exactly point 0. -/
theorem C6_witness :
    (([1, 2, 3] : List ℕ).Pairwise (· < ·) ∧
      (∀ i ∈ ([1, 2, 3] : List ℕ), i < (getDataList (.dict
        [("data", PyVal.list examplePoints)])).length)) ∧
    (fix_corrupted_data C6fs "session.json" (.dict
        [("data", PyVal.list examplePoints)]) [1, 2, 3] true true).fs
      ("session.json" ++ ".backup") = C6fs "session.json" ∧
    getDataList (repairedJson (.dict [("data", PyVal.list examplePoints)]) [1, 2, 3]) =
      keepIdxFrom 0 [1, 2, 3] (getDataList (.dict [("data", PyVal.list examplePoints)])) :=
  ⟨⟨by decide, by decide⟩,
    (C6_repair_behavior C6fs "session.json" [("data", PyVal.list examplePoints)]
      [1, 2, 3] true (by decide) (by decide)).2.2.1,
    (C6_repair_behavior C6fs "session.json" [("data", PyVal.list examplePoints)]
      [1, 2, 3] true (by decide) (by decide)).2.2.2.1⟩

end PowerAnalyzer
